import Mathlib

/-!
Verification of the AGENTS.md generator's core pipeline against its
natural-language specification.

The source is a TypeScript editor extension.  JavaScript strings are
modelled as `List Char` (`Str`); JavaScript runtime behaviour that the
source relies on is modelled explicitly:

* `String.prototype.replace(search, repl)` with a string `search`
  replaces only the first occurrence and processes dollar-replacement
  patterns in `repl` (`jsReplace` / `getSubstitution`);
* `RegExp` compilation is modelled by a parser (`parseItems`) for the
  regex fragment the ignore filter can produce, returning `none` on a
  malformed regex (a thrown `SyntaxError` in JS);
* `.` in a regex matches every character except the four JS line
  terminators (`jsDot`);
* `Array.prototype.sort` is stable (ES2019), modelled by a stable
  insertion sort with the same comparator;
* JS `Map` preserves insertion order (`mset` / `mget`).

Filesystem state is passed in explicitly (directory trees as data,
file contents / timestamps as `Option` values); the chat-model endpoint
is an oracle (`Except`-valued call results).
-/

/-- JavaScript strings, modelled as lists of characters. -/
abbrev Str := List Char

/-- The backquote character (written via its code point). -/
def backquote : Char := Char.ofNat 96

/-- Characters of a Lean string literal, used to write constants. -/
def cs (s : String) : Str := s.data

/-! ## Generic JavaScript string helpers -/

/-- Split `s` at the first occurrence of `sep`: `some (pre, post)`
with `s = pre ++ sep ++ post` and the occurrence leftmost, or `none`
when `sep` does not occur (models `String.prototype.indexOf`). -/
def splitFirst (sep : Str) : Str → Option (Str × Str)
  | [] => if sep.isPrefixOf ([] : Str) then some ([], []) else none
  | c :: rest =>
      if sep.isPrefixOf (c :: rest) then some ([], (c :: rest).drop sep.length)
      else (splitFirst sep rest).map (fun p => (c :: p.1, p.2))

/-- `true` iff `sub` occurs as a contiguous substring of `s`
(JavaScript `s.includes(sub)`). -/
def containsSub (s : Str) (sub : Str) : Bool := (splitFirst sub s).isSome

/-- The `GetSubstitution` step of JavaScript `String.prototype.replace`
with a string replacement: in `repl`, a doubled dollar becomes one
dollar, dollar-ampersand the matched text, dollar-backquote the text
before the match, dollar-quote the text after; everything else is
copied verbatim.  (With a string search there are no capture groups,
so a dollar followed by a digit stays literal.) -/
def getSubstitution (matched pre post : Str) : Str → Str
  | [] => []
  | [c] => [c]
  | c :: d :: rest =>
    if c = '$' then
      if d = '$' then '$' :: getSubstitution matched pre post rest
      else if d = '&' then matched ++ getSubstitution matched pre post rest
      else if d = backquote then pre ++ getSubstitution matched pre post rest
      else if d = '\'' then post ++ getSubstitution matched pre post rest
      else c :: getSubstitution matched pre post (d :: rest)
    else c :: getSubstitution matched pre post (d :: rest)

/-- JavaScript `s.replace(search, repl)` with string arguments: replace
the first occurrence of `search` by `repl` (after dollar-pattern
processing); if `search` does not occur, return `s` unchanged. -/
def jsReplace (s search repl : Str) : Str :=
  match splitFirst search s with
  | none => s
  | some (pre, post) => pre ++ getSubstitution search pre post repl ++ post

/-- `repl` contains no two-character dollar-replacement pattern, so
`getSubstitution` copies it verbatim. -/
def noDollarPat : Str → Bool
  | [] => true
  | [_] => true
  | c :: d :: rest =>
    if c = '$' then
      if d = '$' then false
      else if d = '&' then false
      else if d = backquote then false
      else if d = '\'' then false
      else noDollarPat (d :: rest)
    else noDollarPat (d :: rest)

/-- JavaScript whitespace, restricted to the ASCII characters stripped
by `String.prototype.trim`. -/
def jsWs (c : Char) : Bool :=
  c = ' ' || c = '\t' || c = '\n' || c = '\r' || c = '\x0b' || c = '\x0c'

/-- JavaScript `s.trim()`. -/
def jsTrim (s : Str) : Str :=
  ((s.dropWhile jsWs).reverse.dropWhile jsWs).reverse

/-! ## Ignore Filter (src/ignoreConfig.ts)

`matchesPattern` escapes every regex metacharacter except the asterisk
and replaces each asterisk by dot-asterisk, then compiles
an anchored `RegExp` and tests the text.  `RegExp` construction is the
only step that could throw; it is modelled by the fallible parser
`parseItems` over the regex fragment reachable from escaped patterns
(escaped characters, the dot, postfix asterisk); constructs outside the
fragment — which escaped output never contains — conservatively parse
to `none` (a compilation failure / thrown exception). -/

/-- Characters escaped by the first replace of `matchesPattern`
(the character class of metacharacters, everything except the
asterisk). -/
def regexSpecials : List Char :=
  ['.', '+', '?', '^', '$', Char.ofNat 123, Char.ofNat 125,
   '(', ')', '|', '[', ']', '\\']

/-- First replace of `matchesPattern`: prefix every metacharacter with
a backslash. -/
def escapeSpecials : Str → Str
  | [] => []
  | c :: rest => (if c ∈ regexSpecials then ['\\', c] else [c]) ++ escapeSpecials rest

/-- Second replace of `matchesPattern`: expand every asterisk into
dot-asterisk. -/
def starExpand : Str → Str
  | [] => []
  | c :: rest => (if c = '*' then ['.', '*'] else [c]) ++ starExpand rest

/-- One compiled regex item of the fragment: a literal character, the
dot wildcard, or a starred atom. -/
inductive RItem where
  | lit (c : Char)
  | dot
  | star (r : RItem)
deriving DecidableEq

/-- Bare (unescaped) characters outside the modelled regex fragment;
meeting one makes compilation fail in the model.  Escaped patterns
never contain them unescaped. -/
def bareSpecials : List Char :=
  ['+', '?', '^', '$', Char.ofNat 123, Char.ofNat 125, '(', ')', '|', '[', ']']

/-- Parser for the regex fragment: escaped characters, the dot, and
postfix asterisks.  Returns `none` for a malformed regex — a trailing
backslash, an asterisk with nothing to repeat, a doubled asterisk — the
cases where `new RegExp` would throw a `SyntaxError`. -/
def parseItems : Str → Option (List RItem)
  | [] => some []
  | c :: rest =>
    if c = '\\' then
      match rest with
      | [] => none
      | d :: rest2 =>
        match rest2 with
        | e :: rest3 =>
          if e = '*' then (parseItems rest3).map (fun l => RItem.star (RItem.lit d) :: l)
          else (parseItems (e :: rest3)).map (fun l => RItem.lit d :: l)
        | [] => some [RItem.lit d]
    else if c = '.' then
      match rest with
      | e :: rest3 =>
        if e = '*' then (parseItems rest3).map (fun l => RItem.star RItem.dot :: l)
        else (parseItems (e :: rest3)).map (fun l => RItem.dot :: l)
      | [] => some [RItem.dot]
    else if c = '*' then none
    else if c ∈ bareSpecials then none
    else
      match rest with
      | e :: rest3 =>
        if e = '*' then (parseItems rest3).map (fun l => RItem.star (RItem.lit c) :: l)
        else (parseItems (e :: rest3)).map (fun l => RItem.lit c :: l)
      | [] => some [RItem.lit c]
termination_by s => s.length
decreasing_by all_goals simp_arith [List.length]

/-- JavaScript regex dot: any character except the four line
terminators (LF, CR, LINE SEPARATOR, PARAGRAPH SEPARATOR). -/
def jsDot (c : Char) : Bool :=
  !(c = '\n' || c = '\r' || c = Char.ofNat 0x2028 || c = Char.ofNat 0x2029)

/-- Whether a single character matches a starred atom. -/
def atomMatch : RItem → Char → Bool
  | RItem.lit c, t => c = t
  | RItem.dot, t => jsDot t
  | RItem.star _, _ => false

/-- Anchored (whole-string) matching of a compiled item list, the
semantics of `new RegExp(caret ++ body ++ dollar).test(text)`. -/
def rmatch : List RItem → Str → Bool
  | [], [] => true
  | [], _ :: _ => false
  | RItem.lit _ :: _, [] => false
  | RItem.lit c :: ps, t :: ts => (c = t) && rmatch ps ts
  | RItem.dot :: _, [] => false
  | RItem.dot :: ps, t :: ts => jsDot t && rmatch ps ts
  | RItem.star _ :: ps, [] => rmatch ps []
  | RItem.star r :: ps, t :: ts =>
      rmatch ps (t :: ts) || (atomMatch r t && rmatch (RItem.star r :: ps) ts)
termination_by l s => (l.length, s.length)

/-- `matchesPattern`, exception-aware: `none` models a thrown
exception from `RegExp` compilation. -/
def matchesPatternE (text pattern : Str) : Option Bool :=
  (parseItems (starExpand (escapeSpecials pattern))).map (fun items => rmatch items text)

/-- Total wrapper for `matchesPattern` (the exception case never
happens; see `parseItems_escaped`). -/
def matchesPattern (text pattern : Str) : Bool :=
  (matchesPatternE text pattern).getD false

/-- Wildcard-only glob semantics with the JS dot: an asterisk in the
pattern matches zero or more characters, none of which is a line
terminator; every other pattern character matches itself literally. -/
def jsGlob : Str → Str → Bool
  | [], [] => true
  | [], _ :: _ => false
  | p :: ps, t =>
    if p = '*' then
      jsGlob ps t ||
        (match t with
         | [] => false
         | c :: ts => jsDot c && jsGlob (p :: ps) ts)
    else
      match t with
      | [] => false
      | c :: ts => (p = c) && jsGlob ps ts
termination_by p t => (p.length, t.length)

/-- The item list every pattern compiles to: asterisks become starred
dots, everything else a literal. -/
def globItems (p : Str) : List RItem :=
  p.map (fun c => if c = '*' then RItem.star RItem.dot else RItem.lit c)

/-- Glob semantics as the claim words them: an asterisk matches zero
or more arbitrary characters (no line-terminator exclusion).
Modelled from the claim text, for comparison with the source's
`matchesPattern`. -/
def specGlobAnyChar : Str → Str → Bool
  | [], [] => true
  | [], _ :: _ => false
  | p :: ps, t =>
    if p = '*' then
      specGlobAnyChar ps t ||
        (match t with
         | [] => false
         | _ :: ts => specGlobAnyChar (p :: ps) ts)
    else
      match t with
      | [] => false
      | c :: ts => (p = c) && specGlobAnyChar ps ts
termination_by p t => (p.length, t.length)

/-- The ignore configuration: exact names plus wildcard patterns
(the runtime module state of ignoreConfig.ts). -/
structure IgnoreConfig where
  names : List Str
  patterns : List Str

/-- Path-scoped matching of one pattern, as in the loop body of
`shouldIgnoreFolder`: only patterns containing a path separator are
also matched against the separator-normalized relative path. -/
def normSlashes (s : Str) : Str := s.map (fun c => if c = '\\' then '/' else c)

/-- The relative-path clause of the pattern loop for one pattern:
applies only when a relative path was supplied and is non-empty (JS
truthiness of the `relativePath` argument) and the pattern contains a
separator. -/
def relPathMatches (p : Str) (rel : Option Str) : Bool :=
  match rel with
  | some r =>
    (!r.isEmpty && (p.contains '/' || p.contains '\\')) &&
      jsGlob (normSlashes p) (normSlashes r)
  | none => false

/-- One iteration of the pattern loop of `shouldIgnoreFolder`,
exception-aware: first match the bare folder name, then (when a
relative path was supplied and the pattern contains a separator) the
normalized relative path; `none` models an exception escaping the
loop, `next` the outcome of the remaining iterations. -/
def patternStepE (name : Str) (rel : Option Str) (p : Str)
    (next : Option Bool) : Option Bool :=
  match matchesPatternE name p with
  | none => none
  | some true => some true
  | some false =>
    match rel with
    | some r =>
      if !r.isEmpty && (p.contains '/' || p.contains '\\') then
        match matchesPatternE (normSlashes r) (normSlashes p) with
        | none => none
        | some true => some true
        | some false => next
      else next
    | none => next

/-- The pattern loop of `shouldIgnoreFolder`, patterns checked in
configuration order. -/
def patternLoopE (name : Str) (rel : Option Str) : List Str → Option Bool
  | [] => some false
  | p :: ps => patternStepE name rel p (patternLoopE name rel ps)

/-- `shouldIgnoreFolder`, exception-aware: exact-name check first,
then the pattern loop. -/
def shouldIgnoreFolderE (cfg : IgnoreConfig) (folderName : Str)
    (relativePath : Option Str) : Option Bool :=
  if folderName ∈ cfg.names then some true
  else patternLoopE folderName relativePath cfg.patterns

/-- `shouldIgnoreFolder` as a total function (justified by
`shouldIgnoreFolderE_isSome`). -/
def shouldIgnoreFolder (cfg : IgnoreConfig) (folderName : Str)
    (relativePath : Option Str) : Bool :=
  (shouldIgnoreFolderE cfg folderName relativePath).getD false

/-! ### The escaped pattern always compiles, to the glob items -/

/-- The characters a single pattern character contributes to the
escaped regex source. -/
def encChar (c : Char) : Str :=
  if c ∈ regexSpecials then ['\\', c]
  else if c = '*' then ['.', '*'] else [c]

/-! ## Folder tree and traversal orderer (src/folderScanner.ts) -/

/-- One directory of the workspace tree. -/
structure FolderNode where
  path : Str
  name : Str
  children : List FolderNode

/-- `path.sep` of the host, modelled as the POSIX separator. -/
def pathSep : Char := '/'

/-- Pre-order collection over a child list, left to right: each node,
then its subtree, then its right siblings. -/
def collectList : List FolderNode → List FolderNode
  | [] => []
  | FolderNode.mk p nm ch :: rest =>
      FolderNode.mk p nm ch :: (collectList ch ++ collectList rest)

/-- The pre-order collection pass of `flattenFoldersByDepth`
(push the node, then recurse over its children in order). -/
def collect : FolderNode → List FolderNode
  | FolderNode.mk p nm ch => FolderNode.mk p nm ch :: collectList ch

/-- JavaScript `path.split(sep)` for a one-character separator. -/
def splitSep : Str → List Str
  | [] => [[]]
  | c :: rest =>
    if c = pathSep then [] :: splitSep rest
    else
      match splitSep rest with
      | [] => [[c]]
      | g :: gs => (c :: g) :: gs

/-- The sort key of `flattenFoldersByDepth`:
`path.split(path.sep).length`. -/
def pathDepth (n : FolderNode) : Nat := (splitSep n.path).length

/-- The comparator `(a, b) => depthB - depthA` as a boolean order:
`a` may come before `b` iff `b` is at most as deep. -/
def deeperEq (a b : FolderNode) : Bool := pathDepth b ≤ pathDepth a

/-- Stable insertion: `x` goes in front of the first element it
compares no-worse than, after every element it loses to. -/
def insertSorted {α : Type} (le : α → α → Bool) (x : α) : List α → List α
  | [] => [x]
  | y :: ys => if le x y then x :: y :: ys else y :: insertSorted le x ys

/-- Stable sort by insertion; models ES2019 `Array.prototype.sort`,
which is required to be stable (a stable sort for a total preorder has
a unique result, so any stable algorithm yields the same list). -/
def stableSort {α : Type} (le : α → α → Bool) : List α → List α
  | [] => []
  | x :: xs => insertSorted le x (stableSort le xs)

/-- `flattenFoldersByDepth`: collect the tree in pre-order, then
stably sort by path depth, deepest first. -/
def flattenFoldersByDepth (rootNode : FolderNode) : List FolderNode :=
  stableSort deeperEq (collect rootNode)

/-- Strict descendant: a member of the subtree of one of the node's
children. -/
def Descendant (d f : FolderNode) : Prop :=
  ∃ c ∈ f.children, d ∈ collect c

/-- Well-formed trees: each child's path is the parent's path plus a
separator plus the child's own separator-free nonempty name — the
shape `buildFolderTree` produces via `path.join` whenever the root
path does not itself end in a separator. -/
inductive WFTree : FolderNode → Prop where
  | node (n : FolderNode)
      (hpath : ∀ c ∈ n.children, c.path = n.path ++ pathSep :: c.name)
      (hname : ∀ c ∈ n.children, c.name ≠ [] ∧ pathSep ∉ c.name)
      (hch : ∀ c ∈ n.children, WFTree c) : WFTree n

/-- The node the tree builder produces for a workspace rooted at the
filesystem root with one subdirectory a: joining the root path with
the name collapses the separator, so both paths split into two
segments. -/
def rootSlashChild : FolderNode := ⟨cs ("/a"), cs ("a"), []⟩

/-- Workspace root at the filesystem root path. -/
def rootSlashNode : FolderNode := ⟨cs ("/"), cs (""), [rootSlashChild]⟩

/-- Concrete well-formed workspace: /w with child /w/a (which has
child /w/a/b) and child /w/c. -/
def wsChildB : FolderNode := ⟨cs ("/w/a/b"), cs ("b"), []⟩

/-- Subtree /w/a of the concrete workspace. -/
def wsChildA : FolderNode := ⟨cs ("/w/a"), cs ("a"), [wsChildB]⟩

/-- Subtree /w/c of the concrete workspace. -/
def wsChildC : FolderNode := ⟨cs ("/w/c"), cs ("c"), []⟩

/-- Root of the concrete workspace. -/
def wsTree : FolderNode := ⟨cs ("/w"), cs ("w"), [wsChildA, wsChildC]⟩

/-! ## Status manager (src/statusManager.ts) and
workspace manager (src/workspaceManager.ts) -/

/-- Generation state of one folder. -/
inductive GenerationStatus where
  | notStarted
  | inProgress
  | completed
  | failed
deriving DecidableEq

/-- JS `Map` keyed by path, modelled as an insertion-ordered
association list. -/
abbrev StatusMap := List (Str × GenerationStatus)

/-- `Map.get`. -/
def mget (m : StatusMap) (k : Str) : Option GenerationStatus :=
  match m with
  | [] => none
  | (k2, v) :: rest => if k2 = k then some v else mget rest k

/-- `Map.set`: update in place if the key exists, else append. -/
def mset (m : StatusMap) (k : Str) (v : GenerationStatus) : StatusMap :=
  match m with
  | [] => [(k, v)]
  | (k2, v2) :: rest => if k2 = k then (k, v) :: rest else (k2, v2) :: mset rest k v

/-- The status-map reconciliation core of `refreshWorkspaceFolders`:
build a fresh map over the flattened scan result; per path take
NotStarted on reset, otherwise the previous status defaulted to
NotStarted.  (The surrounding vscode plumbing — empty workspace,
scan failure — is outside the model.) -/
def refreshWorkspaceFolders (flattened : List FolderNode)
    (previousStatuses : StatusMap) (resetStatuses : Bool) : StatusMap :=
  flattened.foldl
    (fun m folder =>
      mset m folder.path
        (if resetStatuses then GenerationStatus.notStarted
         else (mget previousStatuses folder.path).getD GenerationStatus.notStarted))
    []

/-- Freshness details of one folder, per `getFolderStatusDetails`.
Timestamps are `mtimeMs` values, modelled as naturals; the ISO
conversion of the display fields keeps JS truthiness (a zero
timestamp renders as absent). -/
structure FolderDocStatusDetails where
  hasAgentsFile : Bool
  agentsUpdatedAt : Option Nat
  contentUpdatedAt : Option Nat
  isUpToDate : Bool
deriving DecidableEq

/-- `getFolderStatusDetails`, over the two filesystem observations it
makes: the stat of the folder's AGENTS.md (`some` mtime when the stat
succeeds and names a regular file) and `getLatestContentMtime` of the
folder. -/
def getFolderStatusDetails (agentsMtimeMs contentMtimeMs : Option Nat) :
    FolderDocStatusDetails :=
  let hasAgentsFile := agentsMtimeMs.isSome
  let isUpToDate :=
    match agentsMtimeMs with
    | some a =>
      match contentMtimeMs with
      | some c => decide (a ≥ c)
      | none => true
    | none => false
  { hasAgentsFile := hasAgentsFile
    agentsUpdatedAt :=
      match agentsMtimeMs with
      | some t => if t ≠ 0 then some t else none
      | none => none
    contentUpdatedAt :=
      match contentMtimeMs with
      | some t => if t ≠ 0 then some t else none
      | none => none
    isUpToDate := isUpToDate }

/-- The directory names `getLatestContentMtime` never descends into. -/
def TIMESTAMP_IGNORED_DIRECTORIES : List Str :=
  [cs ("node_modules"), cs (".git"), cs ("dist"), cs ("out"),
   cs ("build"), cs (".vscode"), cs ("coverage")]

/-- A directory entry as the recursive mtime walk sees it. -/
inductive FsEntry where
  | file (nm : Str) (mtimeMs : Nat)
  | dir (nm : Str) (entries : List FsEntry)
  | symlink (nm : Str)

/-- `latest = typeof latest === 'number' ? Math.max(latest, v) : v`,
guarded on the candidate being present. -/
def latestStep (latest cand : Option Nat) : Option Nat :=
  match cand with
  | none => latest
  | some v =>
    match latest with
    | some l => some (max l v)
    | none => some v

/-- The entry loop of `getLatestContentMtime`: skip symlinks, recurse
into non-ignored directories (starting from no timestamp), take every
file except ones named AGENTS.md. -/
def getLatestContentMtimeList (latest : Option Nat) :
    List FsEntry → Option Nat
  | [] => latest
  | FsEntry.symlink _ :: rest => getLatestContentMtimeList latest rest
  | FsEntry.dir nm sub :: rest =>
    if nm ∈ TIMESTAMP_IGNORED_DIRECTORIES then
      getLatestContentMtimeList latest rest
    else
      getLatestContentMtimeList
        (latestStep latest (getLatestContentMtimeList none sub)) rest
  | FsEntry.file nm t :: rest =>
    if nm = cs ("AGENTS.md") then getLatestContentMtimeList latest rest
    else getLatestContentMtimeList (latestStep latest (some t)) rest

/-- `getLatestContentMtime` over a folder's entry list. -/
def getLatestContentMtime (entries : List FsEntry) : Option Nat :=
  getLatestContentMtimeList none entries

/-- Maximum of a timestamp list, `none` when empty. -/
def specMax : List Nat → Option Nat
  | [] => none
  | v :: rest =>
    some (match specMax rest with
          | some a => max v a
          | none => v)

/-- The timestamps the walk considers (amended reading): every file in
the subtree except files named AGENTS.md at any level, pruning ignored
directories, skipping symlinks. -/
def contentMtimes : List FsEntry → List Nat
  | [] => []
  | FsEntry.symlink _ :: rest => contentMtimes rest
  | FsEntry.dir nm sub :: rest =>
    (if nm ∈ TIMESTAMP_IGNORED_DIRECTORIES then [] else contentMtimes sub)
      ++ contentMtimes rest
  | FsEntry.file nm t :: rest =>
    (if nm = cs ("AGENTS.md") then [] else [t]) ++ contentMtimes rest

/-- Modelled from the claim's words: all file timestamps in the
subtree (no exclusion of nested generated-summary files), pruning
ignored directories. -/
def claimAllMtimes : List FsEntry → List Nat
  | [] => []
  | FsEntry.symlink _ :: rest => claimAllMtimes rest
  | FsEntry.dir nm sub :: rest =>
    (if nm ∈ TIMESTAMP_IGNORED_DIRECTORIES then [] else claimAllMtimes sub)
      ++ claimAllMtimes rest
  | FsEntry.file _ t :: rest => t :: claimAllMtimes rest

/-- Modelled from the claim's words: exclude only the folder's own
generated-summary file (the top-level AGENTS.md), keep every other
file of the subtree including nested AGENTS.md files. -/
def claimContentMtimes : List FsEntry → List Nat
  | [] => []
  | FsEntry.symlink _ :: rest => claimContentMtimes rest
  | FsEntry.dir nm sub :: rest =>
    (if nm ∈ TIMESTAMP_IGNORED_DIRECTORIES then [] else claimAllMtimes sub)
      ++ claimContentMtimes rest
  | FsEntry.file nm t :: rest =>
    (if nm = cs ("AGENTS.md") then [] else [t]) ++ claimContentMtimes rest

/-! ## Prompt builder (promptConfig.ts) and generation engine
(src/folderScanner.ts) -/

/-- The two configurable templates. -/
structure PromptConfig where
  mainTemplate : Str
  subfolderContextTemplate : Str

/-- The child-context placeholder of the main template. -/
def SUBFOLDER_CONTEXT_TOKEN : Str := cs ("\x7b\x7bSUBFOLDER_CONTEXT\x7d\x7d")

/-- The docs placeholder of the child-context template. -/
def SUBFOLDER_DOCS_TOKEN : Str := cs ("\x7b\x7bSUBFOLDER_DOCS\x7d\x7d")

/-- The folder-structure placeholder of the main template. -/
def FOLDER_STRUCTURE_TOKEN : Str := cs ("\x7b\x7bFOLDER_STRUCTURE\x7d\x7d")

/-- The rendered child-context block: the per-child sections and the
folder list accumulated over the docs mapping (insertion order), the
list prepended, substituted into the child-context template. -/
def renderChildContext (config : PromptConfig)
    (subfolderDocs : List (Str × Str)) : Str :=
  let acc := subfolderDocs.foldl
    (fun acc fp =>
      (acc.1 ++ cs ("\n### ") ++ fp.1 ++ cs ("/\n") ++ cs ("Location: ")
        ++ fp.1 ++ cs ("/AGENTS.md\n")
        ++ cs ("Summary from this sub-folder:\n") ++ fp.2 ++ cs ("\n\n"),
       acc.2 ++ [fp.1]))
    (([], []) : Str × List Str)
  let folderList := acc.2.foldl (fun fl nm => fl ++ cs ("- ") ++ nm ++ cs ("/\n"))
    (cs ("\nSub-folders with AGENTS.md files:\n"))
  jsReplace config.subfolderContextTemplate SUBFOLDER_DOCS_TOKEN
    (folderList ++ cs ("\n") ++ acc.1)

/-- The fixed instruction substituted when no child has a summary. -/
def noSubfoldersMessage : Str :=
  cs ("No sub-folders have AGENTS.md files.\n\nINSTRUCTIONS: \n- COMPLETELY REMOVE the \"## Sub-folders (CONDITIONAL - see instructions below)\" section (heading and placeholder text)\n- COMPLETELY REMOVE the \"## For More Details (CONDITIONAL - see instructions below)\" section (heading and placeholder text)\n- Continue directly to the next section (Related Folders/Files)")

/-- `buildPrompt`: substitute the child context (or the fixed
instruction) for the child-context placeholder, then the folder
structure for the folder-structure placeholder. -/
def buildPrompt (config : PromptConfig) (folderStructure : Str)
    (subfolderDocs : List (Str × Str)) : Str :=
  let prompt := config.mainTemplate
  let prompt :=
    if ¬ subfolderDocs.isEmpty then
      jsReplace prompt SUBFOLDER_CONTEXT_TOKEN
        (renderChildContext config subfolderDocs)
    else
      jsReplace prompt SUBFOLDER_CONTEXT_TOKEN noSubfoldersMessage
  jsReplace prompt FOLDER_STRUCTURE_TOKEN folderStructure

/-- The block `buildPrompt` substitutes for the child-context
placeholder: the rendered child context when the mapping is nonempty,
else the fixed instruction. -/
def childBlock (config : PromptConfig) (subfolderDocs : List (Str × Str)) : Str :=
  if ¬ subfolderDocs.isEmpty then renderChildContext config subfolderDocs
  else noSubfoldersMessage

/-- The chat-model boundary: which model ids a selection query
returns, and what a request to a model streams back (`Except.error`
models a thrown provider error). -/
structure ModelEnv where
  selectChatModels : Str → List Str
  send : Str → Str → Except Unit Str

/-- The fixed merge-instruction prompt embedding both texts. -/
def mergePrompt (existingContent newContent : Str) : Str :=
  cs ("You are a documentation merge assistant. You need to intelligently merge an existing AGENTS.md file with newly generated content.\n\nINSTRUCTIONS:\n1. The NEW content contains updated information about the folder structure, files, and components\n2. The EXISTING content may have custom sections (like \"Coding Styles\", \"Architecture Decisions\", \"Testing Guidelines\", etc.) that should be PRESERVED\n3. Standard sections (like Overview, Key Components, Sub-folders, etc.) should be REPLACED with the new content\n4. Custom sections that don\x27t appear in the new content should be KEPT and placed after the standard sections\n5. If the existing content has a custom section that seems to overlap with standard content, prefer the NEW content but keep any unique information\n6. Maintain the same markdown formatting and structure\n7. Do NOT add any explanatory text - just output the merged markdown content\n\nEXISTING CONTENT:\n")
    ++ existingContent
    ++ cs ("\n\n---\n\nNEW CONTENT:\n")
    ++ newContent
    ++ cs ("\n\n---\n\nOUTPUT THE MERGED CONTENT (just the markdown, no explanations):")

/-- The deterministic fallback separator of `mergeWithExistingContent`. -/
def previousContentSeparator : Str :=
  cs ("\n\n---\n\n## Previous Custom Content\n\n")

/-- `mergeWithExistingContent`: ask the model to merge; on success
return the trimmed response, on a thrown error fall back to appending
the existing content after a fixed labelled separator. -/
def mergeWithExistingContent (env : ModelEnv) (existingContent newContent : Str)
    (model : Str) : Str :=
  match env.send model (mergePrompt existingContent newContent) with
  | Except.ok response => jsTrim response
  | Except.error _ => newContent ++ previousContentSeparator ++ existingContent

/-- The per-folder inputs of `generateAgentsMdForFolder`: the folder's
name, the read of its existing AGENTS.md (`none` when absent or
unreadable), the assembled folder structure and child summaries, and
the configured model id. -/
structure GenInput where
  name : Str
  existingContent : Option Str
  folderStructure : Str
  subfolderDocs : List (Str × Str)
  selectedModelId : Option Str

/-- The fallback document written when generation fails. -/
def fallbackContent (name : Str) : Str :=
  cs ("# ") ++ name ++ cs ("\n\n*This folder requires documentation. AGENTS.md generation encountered an error.*\n\nPlease manually document this folder\x27s purpose and contents.")

/-- Outcome of one generation: the content written to the folder's
AGENTS.md, the returned boolean, and whether the main model request
was ever issued. -/
structure GenOutcome where
  written : Str
  ok : Bool
  invokedModel : Bool
deriving DecidableEq

/-- `generateAgentsMdForFolder`: build the prompt; fail before any
model invocation when no model id is selected or resolution returns
no model (both throw into the catch block, which writes the fallback
document and returns false); invoke the model; on a thrown provider
error write the fallback document and return false; on success merge
with non-empty existing content (JS truthiness: empty existing content
skips the merge) and write the result, returning true. -/
def generateAgentsMdForFolder (cfg : PromptConfig) (env : ModelEnv)
    (inp : GenInput) : GenOutcome :=
  let prompt := buildPrompt cfg inp.folderStructure inp.subfolderDocs
  match inp.selectedModelId with
  | none => ⟨fallbackContent inp.name, false, false⟩
  | some id =>
    match env.selectChatModels id with
    | [] => ⟨fallbackContent inp.name, false, false⟩
    | m :: _ =>
      match env.send m prompt with
      | Except.error _ => ⟨fallbackContent inp.name, false, true⟩
      | Except.ok agentsContent =>
        let finalContent :=
          match inp.existingContent with
          | some existing =>
            if existing ≠ [] then
              mergeWithExistingContent env existing agentsContent m
            else agentsContent
          | none => agentsContent
        ⟨finalContent, true, true⟩

/-! ### C6: prompt placeholder substitution -/

/-- A main template containing the child-context placeholder twice. -/
def dupPlaceholderConfig : PromptConfig :=
  ⟨cs ("A\x7b\x7bSUBFOLDER_CONTEXT\x7d\x7dB\x7b\x7bSUBFOLDER_CONTEXT\x7d\x7d"),
   cs ("T")⟩

/-- Witness template: child-context placeholder, then a
folder-structure placeholder further right. -/
def witnessPromptConfig : PromptConfig :=
  ⟨cs ("A\x7b\x7bSUBFOLDER_CONTEXT\x7d\x7dM\x7b\x7bFOLDER_STRUCTURE\x7d\x7dZ"),
   cs ("T")⟩

/-- A model boundary whose every request throws. -/
def failingModelEnv : ModelEnv :=
  ⟨fun _ => [cs ("gpt-4o")], fun _ _ => Except.error ()⟩

/-! ## Status snapshot (src/statusManager.ts, buildStatusSnapshot)

`localeCompare` with no arguments is the host's default-locale
collation, not code-unit order.  It is modelled here for ASCII after
the ICU root collation Node ships: primary weight folds case (letters
collate together, after non-letters), the tertiary weight puts
lowercase before uppercase.  In particular "/a" collates before "/B"
although code-unit order puts "/B" first. -/

/-- Primary collation weight (ASCII approximation of the root
collation: non-letters by code point, letters case-folded above
them). -/
def collPrimary (c : Char) : Nat :=
  if 'a' ≤ c ∧ c ≤ 'z' then 0x110000 + (c.toNat - 'a'.toNat)
  else if 'A' ≤ c ∧ c ≤ 'Z' then 0x110000 + (c.toNat - 'A'.toNat)
  else c.toNat

/-- Tertiary collation weight: lowercase before uppercase. -/
def collTertiary (c : Char) : Nat :=
  if 'A' ≤ c ∧ c ≤ 'Z' then 1 else 0

/-- Lexicographic comparison of weight lists. -/
def compareNatList : List Nat → List Nat → Ordering
  | [], [] => Ordering.eq
  | [], _ :: _ => Ordering.lt
  | _ :: _, [] => Ordering.gt
  | a :: as2, b :: bs =>
    if a < b then Ordering.lt
    else if b < a then Ordering.gt
    else compareNatList as2 bs

/-- Model of `a.localeCompare(b)` under the default locale, for ASCII
strings: primary pass, then tertiary tie-break. -/
def jsLocaleCompare (a b : Str) : Ordering :=
  match compareNatList (a.map collPrimary) (b.map collPrimary) with
  | Ordering.eq => compareNatList (a.map collTertiary) (b.map collTertiary)
  | o => o

/-- The comparator the snapshot sort uses:
`(a, b) => a.path.localeCompare(b.path)`, as a may-come-before
boolean. -/
def localeLe (a b : FolderNode) : Bool :=
  jsLocaleCompare a.path b.path ≠ Ordering.gt

/-- Modelled from the claim's words: ascending code-unit
lexicographic order on paths. -/
def lexLeStr (a b : Str) : Bool :=
  compareNatList (a.map Char.toNat) (b.map Char.toNat) ≠ Ordering.gt

/-- One display row of the snapshot (statusTypes.ts `StatusItem`:
the folder identity, its status, and the spread freshness details). -/
structure StatusItem where
  path : Str
  name : Str
  relativePath : Str
  depth : Nat
  status : GenerationStatus
  hasAgentsFile : Bool
  agentsUpdatedAt : Option Nat
  contentUpdatedAt : Option Nat
  isUpToDate : Bool

/-- The aggregate snapshot pushed to the dashboard. -/
structure StatusSnapshot where
  total : Nat
  completed : Nat
  inProgress : Nat
  failed : Nat
  items : List StatusItem
  lastUpdated : Str

/-- `buildStatusSnapshot`: total from the discovered list, items from
a sorted copy (sorted by locale comparison of paths, statuses looked
up with NotStarted default), counters by one pass over the items.
The relative-path, depth and freshness-details computations are
filesystem/path-library calls, passed in as oracles. -/
def buildStatusSnapshot (discoveredFolders : List FolderNode)
    (folderStatusMap : StatusMap) (relativeOf : Str → Str)
    (depthOf : Str → Nat) (detailsOf : Str → FolderDocStatusDetails)
    (lastUpdated : Str) : StatusSnapshot :=
  let total := discoveredFolders.length
  let sortedForDisplay := stableSort localeLe discoveredFolders
  let items := sortedForDisplay.map (fun folder =>
    { path := folder.path
      name := folder.name
      relativePath := relativeOf folder.path
      depth := depthOf folder.path
      status := (mget folderStatusMap folder.path).getD GenerationStatus.notStarted
      hasAgentsFile := (detailsOf folder.path).hasAgentsFile
      agentsUpdatedAt := (detailsOf folder.path).agentsUpdatedAt
      contentUpdatedAt := (detailsOf folder.path).contentUpdatedAt
      isUpToDate := (detailsOf folder.path).isUpToDate : StatusItem })
  let counts := items.foldl
    (fun acc item =>
      match item.status with
      | GenerationStatus.completed => (acc.1 + 1, acc.2.1, acc.2.2)
      | GenerationStatus.inProgress => (acc.1, acc.2.1 + 1, acc.2.2)
      | GenerationStatus.failed => (acc.1, acc.2.1, acc.2.2 + 1)
      | GenerationStatus.notStarted => acc)
    ((0, 0, 0) : Nat × Nat × Nat)
  { total := total
    completed := counts.1
    inProgress := counts.2.1
    failed := counts.2.2
    items := items
    lastUpdated := lastUpdated }

/-! ### Facts about `splitFirst`, `jsReplace`, `containsSub` -/

theorem splitFirst_eq_some {sep s pre post : Str}
    (h : splitFirst sep s = some (pre, post)) : s = pre ++ sep ++ post := by
  induction s generalizing pre with
  | nil =>
    by_cases hp : sep.isPrefixOf ([] : Str) = true
    · have hsep : sep = [] := by
        cases sep with
        | nil => rfl
        | cons a t => simp [List.isPrefixOf] at hp
      simp [splitFirst, hp] at h
      subst hsep
      simp [h.1, h.2]
    · simp [splitFirst, hp] at h
  | cons c rest ih =>
    by_cases hp : sep.isPrefixOf (c :: rest) = true
    · simp only [splitFirst, if_pos hp, Option.some.injEq, Prod.mk.injEq] at h
      obtain ⟨t, ht⟩ := List.isPrefixOf_iff_prefix.mp hp
      have hdrop : (c :: rest).drop sep.length = t := by
        rw [← ht]; simp
      rw [← h.1, ← h.2, hdrop]
      simpa using ht.symm
    · simp only [splitFirst, if_neg hp, Option.map_eq_some', Option.some.injEq,
        Prod.mk.injEq] at h
      obtain ⟨⟨b, q⟩, hb, h1, h2⟩ := h
      subst h2
      rw [← h1]
      simpa using ih hb

theorem splitFirst_self_left (sep post : Str) :
    splitFirst sep (sep ++ post) = some ([], post) := by
  have hp : sep.isPrefixOf (sep ++ post) = true :=
    List.isPrefixOf_iff_prefix.mpr ⟨post, rfl⟩
  cases hsp : sep ++ post with
  | nil =>
    have h1 : sep = [] := by cases sep <;> simp_all
    have h2 : post = [] := by cases post <;> simp_all
    subst h1; subst h2; rfl
  | cons c rest =>
    rw [← hsp]
    cases sep with
    | nil =>
      cases post with
      | nil => rfl
      | cons d t =>
        show splitFirst [] (d :: t) = some ([], d :: t)
        simp [splitFirst, List.isPrefixOf]
    | cons a as =>
      show splitFirst (a :: as) ((a :: as) ++ post) = some ([], post)
      have hp2 : (a :: as).isPrefixOf ((a :: as) ++ post) = true :=
        List.isPrefixOf_iff_prefix.mpr ⟨post, rfl⟩
      simp only [List.cons_append, splitFirst, if_pos hp2]
      simp

theorem splitFirst_isSome_of_occ {sub s : Str} (h : sub <:+: s) :
    (splitFirst sub s).isSome := by
  obtain ⟨pre, post, hs⟩ := h
  induction pre generalizing s with
  | nil =>
    simp only [List.nil_append] at hs
    subst hs
    rw [splitFirst_self_left]; rfl
  | cons c cs2 ih =>
    subst hs
    by_cases hp : sub.isPrefixOf (c :: (cs2 ++ sub ++ post)) = true
    · show (splitFirst sub (c :: (cs2 ++ sub ++ post))).isSome
      simp only [splitFirst, if_pos hp]
      rfl
    · show (splitFirst sub (c :: (cs2 ++ sub ++ post))).isSome
      simp only [splitFirst, if_neg hp]
      have := ih (s := cs2 ++ sub ++ post) rfl
      obtain ⟨v, hv⟩ := Option.isSome_iff_exists.mp this
      have hv2 : splitFirst sub (cs2 ++ (sub ++ post)) = some v := by
        rw [← List.append_assoc]; exact hv
      simp [hv2]

theorem containsSub_eq_true_iff (s sub : Str) :
    containsSub s sub = true ↔ sub <:+: s := by
  constructor
  · intro h
    obtain ⟨⟨pre, post⟩, hv⟩ := Option.isSome_iff_exists.mp h
    exact ⟨pre, post, (splitFirst_eq_some hv).symm⟩
  · intro h
    exact splitFirst_isSome_of_occ h

theorem getSubstitution_of_noDollarPat (matched pre post : Str) :
    ∀ repl, noDollarPat repl = true →
      getSubstitution matched pre post repl = repl
  | [], _ => rfl
  | [c], _ => rfl
  | c :: d :: rest, h => by
    by_cases hc : c = '$'
    · subst hc
      have hd1 : ¬ d = '$' := by
        intro hd; rw [hd] at h; simp [noDollarPat] at h
      have hd2 : ¬ d = '&' := by
        intro hd; rw [hd] at h; simp [noDollarPat] at h
      have hd3 : ¬ d = backquote := by
        intro hd; rw [hd] at h; simp [noDollarPat] at h
      have hd4 : ¬ d = '\'' := by
        intro hd; rw [hd] at h; simp [noDollarPat] at h
      have hrest : noDollarPat (d :: rest) = true := by
        simpa [noDollarPat, hd1, hd2, hd3, hd4] using h
      have ih := getSubstitution_of_noDollarPat matched pre post (d :: rest) hrest
      simp [getSubstitution, hd1, hd2, hd3, hd4, ih]
    · have hrest : noDollarPat (d :: rest) = true := by
        simpa [noDollarPat, hc] using h
      have ih := getSubstitution_of_noDollarPat matched pre post (d :: rest) hrest
      simp [getSubstitution, hc, ih]

theorem jsReplace_not_found {s search : Str} (repl : Str)
    (h : splitFirst search s = none) : jsReplace s search repl = s := by
  unfold jsReplace; rw [h]

theorem jsReplace_found {s search repl pre post : Str}
    (h : splitFirst search s = some (pre, post))
    (hnd : noDollarPat repl = true) :
    jsReplace s search repl = pre ++ repl ++ post := by
  unfold jsReplace
  rw [h]
  show pre ++ getSubstitution search pre post repl ++ post = pre ++ repl ++ post
  rw [getSubstitution_of_noDollarPat search pre post repl hnd]

theorem containsSub_append_mid (pre mid post : Str) :
    containsSub (pre ++ mid ++ post) mid = true :=
  (containsSub_eq_true_iff _ _).mpr (List.infix_append pre mid post)

theorem starExpand_append (a b : Str) :
    starExpand (a ++ b) = starExpand a ++ starExpand b := by
  induction a with
  | nil => rfl
  | cons c rest ih => simp [starExpand, ih]

theorem enc_cons (c : Char) (p : Str) :
    starExpand (escapeSpecials (c :: p)) =
      encChar c ++ starExpand (escapeSpecials p) := by
  show starExpand ((if c ∈ regexSpecials then ['\\', c] else [c]) ++ escapeSpecials p) = _
  rw [starExpand_append]
  by_cases hs : c ∈ regexSpecials
  · have hcs : ¬ c = '*' := by
      intro hc; subst hc; revert hs; decide
    simp [encChar, hs, starExpand, hcs]
  · by_cases hstar : c = '*'
    · subst hstar; simp [encChar, hs, starExpand]
    · simp [encChar, hs, hstar, starExpand]

theorem encChar_ne_nil (c : Char) : ¬ encChar c = [] := by
  unfold encChar
  by_cases h1 : c ∈ regexSpecials
  · simp [h1]
  · by_cases h2 : c = '*'
    · subst h2; decide
    · simp [h1, h2]

theorem enc_eq_nil {p : Str}
    (h : starExpand (escapeSpecials p) = []) : p = [] := by
  cases p with
  | nil => rfl
  | cons c rest =>
    rw [enc_cons] at h
    cases hc : encChar c with
    | nil => exact absurd hc (encChar_ne_nil c)
    | cons x xs => rw [hc] at h; simp at h

theorem enc_head_ne_star (p : Str) {d : Char} {t : Str}
    (h : starExpand (escapeSpecials p) = d :: t) : ¬ d = '*' := by
  cases p with
  | nil => simp [escapeSpecials, starExpand] at h
  | cons c rest =>
    rw [enc_cons] at h
    by_cases hs : c ∈ regexSpecials
    · have he : encChar c = ['\\', c] := by simp [encChar, hs]
      rw [he] at h
      simp at h
      rw [← h.1]; decide
    · by_cases hstar : c = '*'
      · subst hstar
        have he : encChar '*' = ['.', '*'] := by decide
        rw [he] at h
        simp at h
        rw [← h.1]; decide
      · have he : encChar c = [c] := by simp [encChar, hs, hstar]
        rw [he] at h
        simp at h
        rw [← h.1]
        exact hstar

theorem parseItems_enc :
    ∀ p, parseItems (starExpand (escapeSpecials p)) = some (globItems p)
  | [] => by simp [escapeSpecials, starExpand, parseItems, globItems]
  | c :: rest => by
    have ih := parseItems_enc rest
    rw [enc_cons]
    by_cases hs : c ∈ regexSpecials
    · have hence : encChar c = ['\\', c] := by simp [encChar, hs]
      have hcs : ¬ c = '*' := by
        intro hc; subst hc; revert hs; decide
      rw [hence]
      cases henc : starExpand (escapeSpecials rest) with
      | nil =>
        have hrest : rest = [] := enc_eq_nil henc
        subst hrest
        rw [parseItems.eq_def]
        simp [globItems, hcs]
      | cons e rest3 =>
        have hne : ¬ e = '*' := enc_head_ne_star rest henc
        rw [henc] at ih
        rw [parseItems.eq_def]
        simp [hne, ih, globItems, hcs]
    · by_cases hstar : c = '*'
      · subst hstar
        have hence : encChar '*' = ['.', '*'] := by decide
        rw [hence]
        rw [parseItems.eq_def]
        simp [ih, globItems]
      · have hence : encChar c = [c] := by simp [encChar, hs, hstar]
        have hbs : ¬ c = '\\' := fun hc => hs (hc ▸ (by decide))
        have hdot : ¬ c = '.' := fun hc => hs (hc ▸ (by decide))
        have hbare : c ∉ bareSpecials := by
          intro hb
          apply hs
          fin_cases hb <;> decide
        rw [hence]
        cases henc : starExpand (escapeSpecials rest) with
        | nil =>
          have hrest : rest = [] := enc_eq_nil henc
          subst hrest
          rw [parseItems.eq_def]
          simp [globItems, hbs, hdot, hstar, hbare]
        | cons e rest3 =>
          have hne : ¬ e = '*' := enc_head_ne_star rest henc
          rw [henc] at ih
          rw [parseItems.eq_def]
          simp [hbs, hdot, hstar, hbare, hne, ih, globItems]

/-! ### Compiled matching is glob matching -/

theorem rmatch_globItems :
    ∀ p t, rmatch (globItems p) t = jsGlob p t
  | [], [] => by
    rw [rmatch.eq_def, jsGlob.eq_def]; rfl
  | [], _ :: _ => by
    rw [rmatch.eq_def, jsGlob.eq_def]; rfl
  | c :: ps, t => by
    by_cases hc : c = '*'
    · subst hc
      have hg : globItems ('*' :: ps) = RItem.star RItem.dot :: globItems ps := by
        simp [globItems]
      rw [hg]
      cases t with
      | nil =>
        have ih := rmatch_globItems ps []
        rw [rmatch.eq_def, jsGlob.eq_def]
        simp [ih]
      | cons a ts =>
        have ih1 := rmatch_globItems ps (a :: ts)
        have ih2 := rmatch_globItems ('*' :: ps) ts
        rw [hg] at ih2
        rw [rmatch.eq_def, jsGlob.eq_def]
        simp only [atomMatch]
        rw [ih1, ih2]
        simp
    · have hg : globItems (c :: ps) = RItem.lit c :: globItems ps := by
        simp [globItems, hc]
      rw [hg]
      cases t with
      | nil =>
        rw [rmatch.eq_def, jsGlob.eq_def]
        simp [hc]
      | cons a ts =>
        have ih := rmatch_globItems ps ts
        rw [rmatch.eq_def, jsGlob.eq_def]
        simp [hc, ih]
termination_by p t => (p.length, t.length)

theorem matchesPatternE_eq (text pattern : Str) :
    matchesPatternE text pattern = some (jsGlob pattern text) := by
  unfold matchesPatternE
  rw [parseItems_enc pattern, Option.map_some']
  rw [rmatch_globItems]

theorem matchesPattern_eq (text pattern : Str) :
    matchesPattern text pattern = jsGlob pattern text := by
  unfold matchesPattern
  rw [matchesPatternE_eq]
  rfl

theorem patternStepE_eq (name : Str) (rel : Option Str) (p : Str)
    (next : Option Bool) :
    patternStepE name rel p next =
      if jsGlob p name || relPathMatches p rel then some true else next := by
  have hm := matchesPatternE_eq name p
  cases hg : jsGlob p name with
  | true =>
    rw [hg] at hm
    unfold patternStepE
    rw [hm]
    simp
  | false =>
    rw [hg] at hm
    unfold patternStepE
    rw [hm]
    show (match rel with
      | some r =>
        if !r.isEmpty && (p.contains '/' || p.contains '\\') then
          match matchesPatternE (normSlashes r) (normSlashes p) with
          | none => none
          | some true => some true
          | some false => next
        else next
      | none => next) = _
    cases rel with
    | none => simp [relPathMatches]
    | some r =>
      have hm2 := matchesPatternE_eq (normSlashes r) (normSlashes p)
      show (if !r.isEmpty && (p.contains '/' || p.contains '\\') then
          match matchesPatternE (normSlashes r) (normSlashes p) with
          | none => none
          | some true => some true
          | some false => next
        else next) = _
      by_cases hsep : (!r.isEmpty && (p.contains '/' || p.contains '\\')) = true
      · rw [hsep]
        cases hpm : jsGlob (normSlashes p) (normSlashes r) with
        | true =>
          rw [hpm] at hm2
          show (match matchesPatternE (normSlashes r) (normSlashes p) with
            | none => none
            | some true => some true
            | some false => next) = _
          rw [hm2]
          have hmem : ¬ r = [] ∧ ('/' ∈ p ∨ '\\' ∈ p) := by simpa using hsep
          simp [relPathMatches, hpm, hmem.1, hmem.2]
        | false =>
          rw [hpm] at hm2
          show (match matchesPatternE (normSlashes r) (normSlashes p) with
            | none => none
            | some true => some true
            | some false => next) = _
          rw [hm2]
          simp [relPathMatches, hpm]
      · have hsep2 : (!r.isEmpty && (p.contains '/' || p.contains '\\')) = false := by
          rwa [Bool.not_eq_true] at hsep
        rw [hsep2]
        have hmem : ¬ (¬ r = [] ∧ ('/' ∈ p ∨ '\\' ∈ p)) := by simpa using hsep2
        simp [relPathMatches, hmem]

theorem patternLoopE_eq (name : Str) (rel : Option Str) :
    ∀ ps, patternLoopE name rel ps =
      some (ps.any (fun p => jsGlob p name || relPathMatches p rel))
  | [] => by simp [patternLoopE]
  | p :: ps => by
    have ih := patternLoopE_eq name rel ps
    show patternStepE name rel p (patternLoopE name rel ps) = _
    rw [ih, patternStepE_eq]
    by_cases h : (jsGlob p name || relPathMatches p rel) = true
    · simp [h]
    · rw [Bool.not_eq_true] at h
      simp [h]

theorem shouldIgnoreFolderE_eq (cfg : IgnoreConfig) (name : Str)
    (rel : Option Str) :
    shouldIgnoreFolderE cfg name rel =
      some (decide (name ∈ cfg.names) ||
        cfg.patterns.any (fun p => jsGlob p name || relPathMatches p rel)) := by
  unfold shouldIgnoreFolderE
  by_cases hn : name ∈ cfg.names
  · simp [hn]
  · simp [hn, patternLoopE_eq]

theorem relPathMatches_eq_true (p : Str) (rel : Option Str) :
    relPathMatches p rel = true ↔
      ∃ r, rel = some r ∧ r ≠ [] ∧
        (p.contains '/' || p.contains '\\') = true ∧
        jsGlob (normSlashes p) (normSlashes r) = true := by
  cases rel with
  | none => simp [relPathMatches]
  | some r =>
    simp [relPathMatches, and_assoc]

/-- C9: the ignore filter never raises.  The exception-aware model of
`shouldIgnoreFolder` returns a value for every configuration, folder
name and optional relative path — because `matchesPattern` escapes
every regex metacharacter before compiling, compilation of the escaped
form of any pattern (malformed ones, e.g. with an unbalanced escape,
included) always succeeds, so the exception branch is unreachable. -/
theorem shouldIgnoreFolder_never_throws (cfg : IgnoreConfig) (name : Str)
    (rel : Option Str) (pat : Str) :
    shouldIgnoreFolderE cfg name rel = some (shouldIgnoreFolder cfg name rel) ∧
    (parseItems (starExpand (escapeSpecials pat))).isSome = true := by
  constructor
  · unfold shouldIgnoreFolder
    rw [shouldIgnoreFolderE_eq]
    rfl
  · rw [parseItems_enc]
    rfl

/-- C2, counterexample: the claim says the asterisk matches zero or
more characters, but the asterisk compiles to a JS regex dot-star and
the JS dot does not match a line terminator.  With configured pattern
a-star-b and folder name a-LF-b (a legal directory name), the claim's
glob semantics match, yet `shouldIgnoreFolder` returns false. -/
theorem shouldIgnoreFolder_counterexample :
    shouldIgnoreFolder ⟨[], [cs ("a*b")]⟩ (cs ("a\nb")) none = false ∧
    specGlobAnyChar (cs ("a*b")) (cs ("a\nb")) = true := by
  have h1 : cs ("a*b") = ['a', '*', 'b'] := rfl
  have h2 : cs ("a\nb") = ['a', '\n', 'b'] := rfl
  constructor
  · unfold shouldIgnoreFolder
    rw [shouldIgnoreFolderE_eq]
    rw [h1, h2]
    simp only [Option.getD_some, List.any_cons, List.any_nil, relPathMatches]
    simp only [jsGlob.eq_def, jsDot]
    simp
  · rw [h1, h2]
    simp only [specGlobAnyChar.eq_def]
    simp

/-- C2 (amended): `shouldIgnoreFolder` returns true iff the name is in
the configured exact-name set, or the bare name glob-matches some
configured pattern, or a non-empty relative path was supplied and some
pattern contains a path separator and the separator-normalized
relative path glob-matches the normalized pattern — where an asterisk
matches zero or more characters none of which is a line terminator
(the amendment forced by the JS regex dot).  In particular, with
pattern asterisk-tmp, name build-tmp is ignored and name build-temp
is not. -/
theorem shouldIgnoreFolder_spec (cfg : IgnoreConfig) (name : Str)
    (rel : Option Str) :
    (shouldIgnoreFolder cfg name rel = true ↔
      name ∈ cfg.names ∨
        ∃ p ∈ cfg.patterns, jsGlob p name = true ∨
          ∃ r, rel = some r ∧ r ≠ [] ∧
            (p.contains '/' || p.contains '\\') = true ∧
            jsGlob (normSlashes p) (normSlashes r) = true) ∧
    shouldIgnoreFolder ⟨[], [cs ("*-tmp")]⟩ (cs ("build-tmp")) none = true ∧
    shouldIgnoreFolder ⟨[], [cs ("*-tmp")]⟩ (cs ("build-temp")) none = false := by
  refine ⟨?_, ?_, ?_⟩
  · unfold shouldIgnoreFolder
    rw [shouldIgnoreFolderE_eq]
    simp only [Option.getD_some, Bool.or_eq_true, decide_eq_true_eq,
      List.any_eq_true, relPathMatches_eq_true]
  · unfold shouldIgnoreFolder
    rw [shouldIgnoreFolderE_eq]
    have h1 : cs ("*-tmp") = ['*', '-', 't', 'm', 'p'] := rfl
    have h2 : cs ("build-tmp") = ['b', 'u', 'i', 'l', 'd', '-', 't', 'm', 'p'] := rfl
    rw [h1, h2]
    simp only [Option.getD_some, List.any_cons, List.any_nil, relPathMatches]
    simp only [jsGlob.eq_def, jsDot]
    simp
  · unfold shouldIgnoreFolder
    rw [shouldIgnoreFolderE_eq]
    have h1 : cs ("*-tmp") = ['*', '-', 't', 'm', 'p'] := rfl
    have h2 : cs ("build-temp") = ['b', 'u', 'i', 'l', 'd', '-', 't', 'e', 'm', 'p'] := rfl
    rw [h1, h2]
    simp only [Option.getD_some, List.any_cons, List.any_nil, relPathMatches]
    simp only [jsGlob.eq_def, jsDot]
    simp

/-! ### Generic facts about the stable insertion sort -/

theorem insertSorted_perm {α : Type} (le : α → α → Bool) (x : α) (l : List α) :
    (insertSorted le x l).Perm (x :: l) := by
  induction l with
  | nil => simp [insertSorted]
  | cons y ys ih =>
    unfold insertSorted
    by_cases h : le x y = true
    · simp [h]
    · rw [Bool.not_eq_true] at h
      simp only [h, Bool.false_eq_true, if_false]
      exact (ih.cons y).trans (List.Perm.swap x y ys)

theorem stableSort_perm {α : Type} (le : α → α → Bool) (l : List α) :
    (stableSort le l).Perm l := by
  induction l with
  | nil => simp [stableSort]
  | cons x xs ih =>
    unfold stableSort
    exact (insertSorted_perm le x (stableSort le xs)).trans (ih.cons x)

theorem insertSorted_splice {α : Type} (le : α → α → Bool) (x : α) (l : List α) :
    ∃ l1 l2, l = l1 ++ l2 ∧ insertSorted le x l = l1 ++ x :: l2 ∧
      ∀ y ∈ l1, le x y = false := by
  induction l with
  | nil => exact ⟨[], [], rfl, rfl, by simp⟩
  | cons y ys ih =>
    by_cases h : le x y = true
    · exact ⟨[], y :: ys, rfl, by simp [insertSorted, h], by simp⟩
    · obtain ⟨l1, l2, heq, hins, hf⟩ := ih
      rw [Bool.not_eq_true] at h
      refine ⟨y :: l1, l2, by simp [heq], ?_, ?_⟩
      · simp only [insertSorted, h, Bool.false_eq_true, if_false, hins,
          List.cons_append]
      · intro z hz
        rcases List.mem_cons.mp hz with hz1 | hz2
        · subst hz1; exact h
        · exact hf z hz2

theorem insertSorted_pairwise {α : Type} (le : α → α → Bool)
    (htot : ∀ a b, le a b = true ∨ le b a = true)
    (htrans : ∀ a b c, le a b = true → le b c = true → le a c = true)
    (x : α) (l : List α) (hl : l.Pairwise (fun a b => le a b = true)) :
    (insertSorted le x l).Pairwise (fun a b => le a b = true) := by
  induction l with
  | nil => simp [insertSorted]
  | cons y ys ih =>
    rw [List.pairwise_cons] at hl
    obtain ⟨hy, hys⟩ := hl
    by_cases h : le x y = true
    · simp only [insertSorted, h, if_true]
      rw [List.pairwise_cons]
      constructor
      · intro z hz
        rcases List.mem_cons.mp hz with hz1 | hz2
        · subst hz1; exact h
        · exact htrans x y z h (hy z hz2)
      · rw [List.pairwise_cons]
        exact ⟨hy, hys⟩
    · rw [Bool.not_eq_true] at h
      simp only [insertSorted, h, Bool.false_eq_true, if_false]
      rw [List.pairwise_cons]
      constructor
      · intro z hz
        have hz2 := (insertSorted_perm le x ys).mem_iff.mp hz
        rcases List.mem_cons.mp hz2 with hz3 | hz4
        · rw [hz3]
          rcases htot x y with h1 | h1
          · rw [h1] at h; cases h
          · exact h1
        · exact hy z hz4
      · exact ih hys

theorem stableSort_pairwise {α : Type} (le : α → α → Bool)
    (htot : ∀ a b, le a b = true ∨ le b a = true)
    (htrans : ∀ a b c, le a b = true → le b c = true → le a c = true)
    (l : List α) :
    (stableSort le l).Pairwise (fun a b => le a b = true) := by
  induction l with
  | nil => simp [stableSort]
  | cons x xs ih =>
    exact insertSorted_pairwise le htot htrans x (stableSort le xs) ih

theorem stableSort_filter {α : Type} (le : α → α → Bool) (q : α → Bool)
    (hq : ∀ a b, q a = true → q b = true → le a b = true) (l : List α) :
    (stableSort le l).filter q = l.filter q := by
  induction l with
  | nil => simp [stableSort]
  | cons x xs ih =>
    obtain ⟨l1, l2, heq, hins, hf⟩ := insertSorted_splice le x (stableSort le xs)
    show (insertSorted le x (stableSort le xs)).filter q = _
    rw [hins, List.filter_append]
    by_cases hx : q x = true
    · have hl1 : l1.filter q = [] := by
        rw [List.filter_eq_nil_iff]
        intro y hy hqy
        have := hq x y hx hqy
        rw [hf y hy] at this
        cases this
      have hl2 : l2.filter q = (l1 ++ l2).filter q := by
        rw [List.filter_append, hl1, List.nil_append]
      rw [hl1, List.nil_append, List.filter_cons_of_pos hx, hl2, ← heq, ih]
      rw [List.filter_cons_of_pos hx]
    · rw [Bool.not_eq_true] at hx
      rw [List.filter_cons_of_neg (by simp [hx]), ← List.filter_append, ← heq, ih]
      rw [List.filter_cons_of_neg (by simp [hx])]

/-! ### Path depth under well-formedness -/

theorem collect_eq (n : FolderNode) :
    collect n = n :: collectList n.children := by
  cases n; rfl

theorem splitSep_ne_nil (s : Str) : splitSep s ≠ [] := by
  cases s with
  | nil => simp [splitSep]
  | cons c rest =>
    by_cases h : c = pathSep
    · simp [splitSep, h]
    · simp only [splitSep, h, Bool.false_eq_true, if_false]
      cases splitSep rest <;> simp

theorem splitSep_length (s : Str) :
    (splitSep s).length = s.count pathSep + 1 := by
  induction s with
  | nil => simp [splitSep]
  | cons c rest ih =>
    by_cases h : c = pathSep
    · subst h
      simp [splitSep, List.count_cons, ih]
    · cases hs : splitSep rest with
      | nil => exact absurd hs (splitSep_ne_nil rest)
      | cons g gs =>
        have : splitSep (c :: rest) = (c :: g) :: gs := by
          simp only [splitSep, h, Bool.false_eq_true, if_false, hs]
        rw [this]
        rw [hs] at ih
        simp only [List.length_cons] at ih ⊢
        rw [List.count_cons]
        simp [h, ih]

theorem pathDepth_child {n c : FolderNode}
    (hpath : c.path = n.path ++ pathSep :: c.name)
    (hname : pathSep ∉ c.name) :
    pathDepth c = pathDepth n + 1 := by
  unfold pathDepth
  rw [splitSep_length, splitSep_length, hpath]
  rw [List.count_append, List.count_cons]
  have h0 : c.name.count pathSep = 0 := List.count_eq_zero.mpr hname
  simp [h0]

theorem collectList_nil : collectList [] = [] := by
  rw [collectList.eq_def]

theorem collectList_cons (p nm : Str) (ch rest : List FolderNode) :
    collectList (FolderNode.mk p nm ch :: rest) =
      FolderNode.mk p nm ch :: (collectList ch ++ collectList rest) := by
  rw [collectList.eq_def]

theorem mem_collectList {d : FolderNode} :
    ∀ l : List FolderNode, d ∈ collectList l ↔ ∃ c ∈ l, d ∈ collect c
  | [] => by simp [collectList_nil]
  | FolderNode.mk p nm ch :: rest => by
    have ih := mem_collectList (d := d) rest
    rw [collectList_cons]
    simp only [List.mem_cons, List.mem_append, ih]
    constructor
    · rintro (h1 | h2 | h3)
      · exact ⟨FolderNode.mk p nm ch, Or.inl rfl, by
          rw [collect_eq]; simp [h1]⟩
      · exact ⟨FolderNode.mk p nm ch, Or.inl rfl, by
          rw [collect_eq]; simp; right; exact h2⟩
      · obtain ⟨c, hc, hdc⟩ := h3
        exact ⟨c, Or.inr hc, hdc⟩
    · rintro ⟨c, hc, hdc⟩
      rcases hc with hc1 | hc2
      · subst hc1
        rw [collect_eq] at hdc
        rcases List.mem_cons.mp hdc with h1 | h2
        · exact Or.inl h1
        · exact Or.inr (Or.inl h2)
      · exact Or.inr (Or.inr ⟨c, hc2, hdc⟩)

theorem pathDepth_le_of_mem_collect {c : FolderNode} (hwf : WFTree c) :
    ∀ d ∈ collect c, pathDepth c ≤ pathDepth d := by
  induction hwf with
  | @node n hpath hname hch ih =>
    intro d hd
    rw [collect_eq] at hd
    rcases List.mem_cons.mp hd with h1 | h2
    · subst h1; exact Nat.le_refl _
    · obtain ⟨c, hc, hdc⟩ := (mem_collectList n.children).mp h2
      have hdc2 := ih c hc d hdc
      have heq := pathDepth_child (hpath c hc) (hname c hc).2
      omega

theorem WFTree_of_mem_collect {t : FolderNode} (hwf : WFTree t) :
    ∀ f ∈ collect t, WFTree f := by
  induction hwf with
  | @node n hpath hname hch ih =>
    intro f hf
    rw [collect_eq] at hf
    rcases List.mem_cons.mp hf with h1 | h2
    · rw [h1]; exact WFTree.node n hpath hname hch
    · obtain ⟨c, hc, hfc⟩ := (mem_collectList n.children).mp h2
      exact ih c hc f hfc

theorem descendant_pathDepth_lt {f d : FolderNode} (hwf : WFTree f)
    (hdesc : Descendant d f) : pathDepth f < pathDepth d := by
  obtain ⟨c, hc, hdc⟩ := hdesc
  cases hwf with
  | @node n hpath hname hch =>
    have h1 := pathDepth_le_of_mem_collect (hch c hc) d hdc
    have h2 := pathDepth_child (hpath c hc) (hname c hc).2
    omega

theorem deeperEq_total (a b : FolderNode) :
    deeperEq a b = true ∨ deeperEq b a = true := by
  unfold deeperEq
  rcases Nat.le_total (pathDepth a) (pathDepth b) with h | h
  · right; simpa using h
  · left; simpa using h

theorem deeperEq_trans (a b c : FolderNode) (h1 : deeperEq a b = true)
    (h2 : deeperEq b c = true) : deeperEq a c = true := by
  unfold deeperEq at *
  simp only [decide_eq_true_eq] at *
  omega

/-- C1, counterexample: for the tree rooted at path "/" with the
single subdirectory "/a" both nodes have path depth 2 (two
separator-split segments), the stable sort keeps the pre-order tie
order, and the flattened sequence is root first — the descendant's
index is not strictly less than its ancestor's. -/
theorem flattenFoldersByDepth_counterexample :
    Descendant rootSlashChild rootSlashNode ∧
    flattenFoldersByDepth rootSlashNode = [rootSlashNode, rootSlashChild] ∧
    ¬ (∀ i j : Fin 2,
        [rootSlashNode, rootSlashChild].get i = rootSlashChild →
        [rootSlashNode, rootSlashChild].get j = rootSlashNode → i < j) := by
  refine ⟨?_, ?_, ?_⟩
  · refine ⟨rootSlashChild, ?_, ?_⟩
    · simp [rootSlashNode]
    · rw [collect_eq]
      exact List.mem_cons_self _ _
  · have hc : collect rootSlashNode = [rootSlashNode, rootSlashChild] := by
      rw [collect_eq]
      show _ :: collectList [rootSlashChild] = _
      rw [show rootSlashChild = FolderNode.mk (cs ("/a")) (cs ("a")) [] from rfl]
      rw [collectList_cons, collectList_nil]
      simp
    show stableSort deeperEq (collect rootSlashNode) = _
    rw [hc]
    show insertSorted deeperEq rootSlashNode
      (insertSorted deeperEq rootSlashChild (stableSort deeperEq [])) = _
    have hdep : deeperEq rootSlashNode rootSlashChild = true := by
      unfold deeperEq pathDepth
      have h1 : rootSlashNode.path = ['/'] := rfl
      have h2 : rootSlashChild.path = ['/', 'a'] := rfl
      rw [h1, h2]
      rw [show splitSep ['/'] = [[], []] by simp [splitSep, pathSep]]
      rw [show splitSep ['/', 'a'] = [[], ['a']] by simp [splitSep, pathSep]]
      simp
    show insertSorted deeperEq rootSlashNode [rootSlashChild] = _
    unfold insertSorted
    rw [hdep]
    simp
  · intro h
    have := h 1 0 rfl rfl
    exact absurd this (by decide)

/-- C1 (amended): for every well-formed tree — each child's path is
its parent's path extended by a separator and the child's nonempty,
separator-free name (what the tree builder produces whenever the root
path does not itself end in a separator; the counterexample shows the
claim fails for a root like the filesystem root, where the root ties
in depth with its direct children and, collected first, stays first) —
`flattenFoldersByDepth` returns a permutation of the pre-order
collection (every node exactly once), in non-increasing path depth,
equal-depth nodes keeping their collection order, and every descendant
placed strictly before each of its ancestors. -/
theorem flattenFoldersByDepth_spec (t : FolderNode) (hwf : WFTree t) :
    (flattenFoldersByDepth t).Perm (collect t) ∧
    (flattenFoldersByDepth t).Pairwise (fun a b => deeperEq a b = true) ∧
    (∀ dep : Nat,
      (flattenFoldersByDepth t).filter (fun a => pathDepth a == dep) =
        (collect t).filter (fun a => pathDepth a == dep)) ∧
    ∀ F D, F ∈ collect t → Descendant D F →
      ∀ i j : Fin (flattenFoldersByDepth t).length,
        (flattenFoldersByDepth t).get i = D →
        (flattenFoldersByDepth t).get j = F → i < j := by
  refine ⟨stableSort_perm _ _,
    stableSort_pairwise _ deeperEq_total deeperEq_trans _, ?_, ?_⟩
  · intro dep
    apply stableSort_filter
    intro a b ha hb
    simp only [beq_iff_eq] at ha hb
    unfold deeperEq
    simp [ha, hb]
  · intro F D hF hdesc i j hiD hjF
    have hwfF : WFTree F := WFTree_of_mem_collect hwf F hF
    have hdlt : pathDepth F < pathDepth D := descendant_pathDepth_lt hwfF hdesc
    by_contra hij
    push_neg at hij
    have hpw := stableSort_pairwise deeperEq deeperEq_total deeperEq_trans (collect t)
    rw [List.pairwise_iff_get] at hpw
    rcases eq_or_lt_of_le hij with heq | hlt2
    · have hDF : F = D := by
        rw [← hjF, ← hiD, heq]
      rw [hDF] at hdlt
      omega
    · have hp := hpw j i hlt2
      rw [show (stableSort deeperEq (collect t)).get j
            = (flattenFoldersByDepth t).get j from rfl] at hp
      rw [show (stableSort deeperEq (collect t)).get i
            = (flattenFoldersByDepth t).get i from rfl] at hp
      rw [hiD, hjF] at hp
      unfold deeperEq at hp
      simp only [decide_eq_true_eq] at hp
      omega

theorem wsChildB_wf : WFTree wsChildB := by
  refine WFTree.node _ ?_ ?_ ?_ <;> intro c hc <;> simp [wsChildB] at hc

theorem wsChildA_wf : WFTree wsChildA := by
  refine WFTree.node _ ?_ ?_ ?_ <;> intro c hc <;>
    simp only [wsChildA, List.mem_singleton] at hc <;> subst hc
  · rfl
  · exact ⟨by decide, by decide⟩
  · exact wsChildB_wf

theorem wsChildC_wf : WFTree wsChildC := by
  refine WFTree.node _ ?_ ?_ ?_ <;> intro c hc <;> simp [wsChildC] at hc

theorem wsTree_wf : WFTree wsTree := by
  refine WFTree.node _ ?_ ?_ ?_ <;> intro c hc <;>
    simp only [wsTree, List.mem_cons, List.mem_singleton,
      List.not_mem_nil, or_false] at hc <;> rcases hc with hc | hc <;> subst hc
  · rfl
  · rfl
  · exact ⟨by decide, by decide⟩
  · exact ⟨by decide, by decide⟩
  · exact wsChildA_wf
  · exact wsChildC_wf

/-- Witness for C1's amended theorem at the concrete workspace. -/
theorem flattenFoldersByDepth_spec_witness :
    (flattenFoldersByDepth wsTree).Perm (collect wsTree) ∧
    (flattenFoldersByDepth wsTree).Pairwise (fun a b => deeperEq a b = true) ∧
    (∀ dep : Nat,
      (flattenFoldersByDepth wsTree).filter (fun a => pathDepth a == dep) =
        (collect wsTree).filter (fun a => pathDepth a == dep)) ∧
    ∀ F D, F ∈ collect wsTree → Descendant D F →
      ∀ i j : Fin (flattenFoldersByDepth wsTree).length,
        (flattenFoldersByDepth wsTree).get i = D →
        (flattenFoldersByDepth wsTree).get j = F → i < j :=
  flattenFoldersByDepth_spec wsTree wsTree_wf

/-! ### C4: freshness -/

/-- C4: `isUpToDate` is true iff the generated-summary file exists and
either no latest-content timestamp exists or the summary file's
timestamp is at least the latest-content timestamp; in particular it
is false whenever the summary file is absent. -/
theorem getFolderStatusDetails_isUpToDate (a c : Option Nat) :
    ((getFolderStatusDetails a c).isUpToDate = true ↔
      a.isSome = true ∧
        (c = none ∨ ∃ ta tc, a = some ta ∧ c = some tc ∧ tc ≤ ta)) ∧
    (a = none → (getFolderStatusDetails a c).isUpToDate = false) := by
  constructor
  · cases a with
    | none => simp [getFolderStatusDetails]
    | some ta =>
      cases c with
      | none => simp [getFolderStatusDetails]
      | some tc => simp [getFolderStatusDetails, ge_iff_le]
  · intro h
    subst h
    simp [getFolderStatusDetails]

/-! ### C5: status reconciliation -/

theorem mget_mset (m : StatusMap) (k : Str) (v : GenerationStatus) (p : Str) :
    mget (mset m k v) p = if k = p then some v else mget m p := by
  induction m with
  | nil =>
    by_cases h : k = p <;> simp [mset, mget, h]
  | cons kv rest ih =>
    obtain ⟨k2, v2⟩ := kv
    by_cases h2 : k2 = k
    · subst h2
      by_cases h : k2 = p <;> simp [mset, mget, h, ih]
    · by_cases h : k2 = p
      · subst h
        have hkp : ¬ k = k2 := fun hc => h2 hc.symm
        simp [mset, mget, h2, hkp, ih]
      · simp [mset, mget, h2, h, ih]

theorem refresh_fold (g : Str → GenerationStatus) :
    ∀ (l : List FolderNode) (m0 : StatusMap) (p : Str),
      mget (l.foldl (fun m f => mset m f.path (g f.path)) m0) p =
        if p ∈ l.map FolderNode.path then some (g p) else mget m0 p
  | [], m0, p => by simp
  | f :: l2, m0, p => by
    have ih := refresh_fold g l2 (mset m0 f.path (g f.path)) p
    simp only [List.foldl_cons, List.map_cons, List.mem_cons]
    rw [ih]
    by_cases h1 : p ∈ l2.map FolderNode.path
    · simp [h1]
    · by_cases h2 : p = f.path
      · subst h2
        simp [h1, mget_mset]
      · have h3 : ¬ f.path = p := fun hc => h2 hc.symm
        simp [h1, h2, mget_mset, h3]

/-- C5: after a rescan the status map's key set is exactly the path
set of the flattened tree (vanished paths dropped, new paths
defaulting to NotStarted); without reset every surviving path keeps
its previous status; with reset every path is NotStarted. -/
theorem refreshWorkspaceFolders_spec (flattened : List FolderNode)
    (prev : StatusMap) (reset : Bool) (p : Str) :
    ((mget (refreshWorkspaceFolders flattened prev reset) p).isSome = true ↔
      p ∈ flattened.map FolderNode.path) ∧
    (reset = false → p ∈ flattened.map FolderNode.path →
      mget (refreshWorkspaceFolders flattened prev reset) p =
        some ((mget prev p).getD GenerationStatus.notStarted)) ∧
    (reset = true → p ∈ flattened.map FolderNode.path →
      mget (refreshWorkspaceFolders flattened prev reset) p =
        some GenerationStatus.notStarted) := by
  have hfold := refresh_fold
    (fun q => if reset then GenerationStatus.notStarted
              else (mget prev q).getD GenerationStatus.notStarted)
    flattened [] p
  refine ⟨?_, ?_, ?_⟩
  · unfold refreshWorkspaceFolders
    rw [hfold]
    by_cases h : p ∈ flattened.map FolderNode.path <;> simp [h, mget]
  · intro hr hmem
    unfold refreshWorkspaceFolders
    rw [hfold]
    simp [hmem, hr]
  · intro hr hmem
    unfold refreshWorkspaceFolders
    rw [hfold]
    simp [hmem, hr]

/-- Witness for C5 at a one-folder workspace with a previously
Completed status: without reset the status survives, with reset it is
NotStarted, and the key set is the path set. -/
theorem refreshWorkspaceFolders_spec_witness :
    (mget (refreshWorkspaceFolders [⟨cs ("/a"), cs ("a"), []⟩]
        [(cs ("/a"), GenerationStatus.completed)] false) (cs ("/a")) =
      some ((mget [(cs ("/a"), GenerationStatus.completed)] (cs ("/a"))).getD
        GenerationStatus.notStarted)) ∧
    (mget (refreshWorkspaceFolders [⟨cs ("/a"), cs ("a"), []⟩]
        [(cs ("/a"), GenerationStatus.completed)] true) (cs ("/a")) =
      some GenerationStatus.notStarted) ∧
    ((mget (refreshWorkspaceFolders [⟨cs ("/a"), cs ("a"), []⟩]
        [(cs ("/a"), GenerationStatus.completed)] false) (cs ("/gone"))).isSome
      = true ↔ cs ("/gone") ∈
        ([⟨cs ("/a"), cs ("a"), []⟩] : List FolderNode).map FolderNode.path) :=
  ⟨(refreshWorkspaceFolders_spec [⟨cs ("/a"), cs ("a"), []⟩]
      [(cs ("/a"), GenerationStatus.completed)] false (cs ("/a"))).2.1 rfl
      (by simp),
   (refreshWorkspaceFolders_spec [⟨cs ("/a"), cs ("a"), []⟩]
      [(cs ("/a"), GenerationStatus.completed)] true (cs ("/a"))).2.2 rfl
      (by simp),
   (refreshWorkspaceFolders_spec [⟨cs ("/a"), cs ("a"), []⟩]
      [(cs ("/a"), GenerationStatus.completed)] false (cs ("/gone"))).1⟩

/-- Witness for C4: a folder whose summary file is absent is not up to
date. -/
theorem getFolderStatusDetails_isUpToDate_witness :
    (getFolderStatusDetails none (some 3)).isUpToDate = false :=
  (getFolderStatusDetails_isUpToDate none (some 3)).2 rfl

/-! ### C8: latest content timestamp -/

theorem latestStep_assoc (x y z : Option Nat) :
    latestStep (latestStep x y) z = latestStep x (latestStep y z) := by
  cases x <;> cases y <;> cases z <;> simp [latestStep, Nat.max_assoc]

theorem specMax_cons (v : Nat) (r : List Nat) :
    specMax (v :: r) = latestStep (some v) (specMax r) := by
  cases h : specMax r <;> simp [specMax, latestStep, h]

theorem specMax_append (a b : List Nat) :
    specMax (a ++ b) = latestStep (specMax a) (specMax b) := by
  induction a with
  | nil =>
    cases h : specMax b <;> simp [specMax, latestStep, h]
  | cons v a2 ih =>
    rw [List.cons_append, specMax_cons, specMax_cons, ih, latestStep_assoc]

theorem latestStep_none_right (x : Option Nat) : latestStep x none = x := rfl

theorem latestStep_none_left (y : Option Nat) : latestStep none y = y := by
  cases y <;> simp [latestStep]

theorem getLatestContentMtimeList_eq :
    ∀ (l : List FsEntry) (latest : Option Nat),
      getLatestContentMtimeList latest l =
        latestStep latest (specMax (contentMtimes l))
  | [], latest => by
    simp [getLatestContentMtimeList, contentMtimes, specMax, latestStep_none_right]
  | FsEntry.symlink nm :: rest, latest => by
    have ih := getLatestContentMtimeList_eq rest latest
    simp only [getLatestContentMtimeList, contentMtimes]
    exact ih
  | FsEntry.dir nm sub :: rest, latest => by
    have ihr := getLatestContentMtimeList_eq rest
    have ihs := getLatestContentMtimeList_eq sub none
    by_cases h : nm ∈ TIMESTAMP_IGNORED_DIRECTORIES
    · simp only [getLatestContentMtimeList, contentMtimes, h, if_pos,
        List.nil_append]
      exact ihr latest
    · simp only [getLatestContentMtimeList, contentMtimes, h, if_neg,
        not_false_iff, List.nil_append]
      rw [ihr, ihs, latestStep_none_left, specMax_append, latestStep_assoc]
  | FsEntry.file nm t :: rest, latest => by
    have ihr := getLatestContentMtimeList_eq rest
    by_cases h : nm = cs ("AGENTS.md")
    · simp only [getLatestContentMtimeList, contentMtimes, h, if_pos,
        List.nil_append]
      exact ihr latest
    · simp only [getLatestContentMtimeList, contentMtimes, h, if_neg,
        not_false_iff, List.singleton_append]
      rw [ihr, specMax_cons, latestStep_assoc]

/-- C8 (amended): `getLatestContentMtime` equals the maximum
modification timestamp over the files of the subtree, excluding every
file named AGENTS.md at any level (each folder's generated-summary
artifact, not just the top folder's own), pruning the fixed ignored
directory set and skipping symlinks; it is `none` when no such file
exists. -/
theorem getLatestContentMtime_spec (entries : List FsEntry) :
    getLatestContentMtime entries = specMax (contentMtimes entries) := by
  unfold getLatestContentMtime
  rw [getLatestContentMtimeList_eq, latestStep_none_left]

/-- C8, counterexample: a folder containing one subdirectory whose
only file is that subdirectory's AGENTS.md.  The code yields no
timestamp (it skips AGENTS.md at every level of the walk); under the
claim's words — excluding only the folder's own generated-summary
file — the maximum would be that file's timestamp. -/
theorem getLatestContentMtime_counterexample :
    getLatestContentMtime
        [FsEntry.dir (cs ("sub")) [FsEntry.file (cs ("AGENTS.md")) 100]] =
      none ∧
    specMax (claimContentMtimes
        [FsEntry.dir (cs ("sub")) [FsEntry.file (cs ("AGENTS.md")) 100]]) =
      some 100 := by
  constructor
  · have h1 : ¬ cs ("sub") ∈ TIMESTAMP_IGNORED_DIRECTORIES := by decide
    unfold getLatestContentMtime
    simp [getLatestContentMtimeList, h1, latestStep]
  · have h1 : ¬ cs ("sub") ∈ TIMESTAMP_IGNORED_DIRECTORIES := by decide
    simp [claimContentMtimes, claimAllMtimes, h1, specMax]

/-- C6, counterexample: `replace` with a string search substitutes
only the first occurrence, so for a main template containing the
child-context placeholder twice and a non-empty child-summary
mapping, the built prompt still contains the literal placeholder
token, contradicting the claim. -/
theorem buildPrompt_counterexample :
    containsSub
        (buildPrompt dupPlaceholderConfig (cs ("F")) [(cs ("x"), cs ("y"))])
        SUBFOLDER_CONTEXT_TOKEN = true := by
  decide

/-- C6 (amended): writing the main template as `b ++ placeholder ++ a`
with `b` before the first child-context placeholder, and provided the
substituted block carries no dollar replacement pattern: the built
prompt is that template with the block substituted for the first
placeholder occurrence and then the own context substituted for the
first folder-structure placeholder occurrence; the block — the child
rendering when the mapping is non-empty, the fixed omit-instruction
when it is empty — appears in the prompt whenever the own-context
substitution does not land before its end; and when neither
placeholder occurs in the template the text is left as-is (no
error). -/
theorem buildPrompt_spec (config : PromptConfig) (folderStructure : Str)
    (subfolderDocs : List (Str × Str)) :
    (∀ b a,
      splitFirst SUBFOLDER_CONTEXT_TOKEN config.mainTemplate = some (b, a) →
      noDollarPat (childBlock config subfolderDocs) = true →
      (buildPrompt config folderStructure subfolderDocs =
        jsReplace (b ++ childBlock config subfolderDocs ++ a)
          FOLDER_STRUCTURE_TOKEN folderStructure) ∧
      ((splitFirst FOLDER_STRUCTURE_TOKEN
          (b ++ childBlock config subfolderDocs ++ a) = none ∨
        ∃ a1 a2,
          splitFirst FOLDER_STRUCTURE_TOKEN
            (b ++ childBlock config subfolderDocs ++ a) =
            some (b ++ childBlock config subfolderDocs ++ a1, a2)) →
        containsSub (buildPrompt config folderStructure subfolderDocs)
          (childBlock config subfolderDocs) = true)) ∧
    (splitFirst SUBFOLDER_CONTEXT_TOKEN config.mainTemplate = none →
      splitFirst FOLDER_STRUCTURE_TOKEN config.mainTemplate = none →
      buildPrompt config folderStructure subfolderDocs = config.mainTemplate) := by
  have hbuild : buildPrompt config folderStructure subfolderDocs =
      jsReplace
        (jsReplace config.mainTemplate SUBFOLDER_CONTEXT_TOKEN
          (childBlock config subfolderDocs))
        FOLDER_STRUCTURE_TOKEN folderStructure := by
    unfold buildPrompt childBlock
    by_cases hd : subfolderDocs.isEmpty <;> simp [hd]
  constructor
  · intro b a hsc hnd
    have h1 : jsReplace config.mainTemplate SUBFOLDER_CONTEXT_TOKEN
        (childBlock config subfolderDocs) =
        b ++ childBlock config subfolderDocs ++ a :=
      jsReplace_found hsc hnd
    constructor
    · rw [hbuild, h1]
    · intro hfs
      rw [hbuild, h1]
      rcases hfs with hnone | ⟨a1, a2, hsome⟩
      · rw [jsReplace_not_found folderStructure hnone]
        exact containsSub_append_mid b (childBlock config subfolderDocs) a
      · unfold jsReplace
        rw [hsome]
        show containsSub
            ((b ++ childBlock config subfolderDocs ++ a1) ++
              getSubstitution FOLDER_STRUCTURE_TOKEN
                (b ++ childBlock config subfolderDocs ++ a1) a2 folderStructure
              ++ a2)
            (childBlock config subfolderDocs) = true
        apply (containsSub_eq_true_iff _ _).mpr
        refine ⟨b, a1 ++ getSubstitution FOLDER_STRUCTURE_TOKEN
            (b ++ childBlock config subfolderDocs ++ a1) a2 folderStructure
            ++ a2, ?_⟩
        simp [List.append_assoc]
  · intro h1 h2
    rw [hbuild, jsReplace_not_found _ h1, jsReplace_not_found _ h2]

/-- Witness for C6's amended theorem: with one child summary the
prompt contains the rendered child block. -/
theorem buildPrompt_spec_witness :
    (buildPrompt witnessPromptConfig (cs ("F")) [(cs ("x"), cs ("y"))] =
      jsReplace
        (cs ("A") ++ childBlock witnessPromptConfig [(cs ("x"), cs ("y"))] ++
          cs ("M\x7b\x7bFOLDER_STRUCTURE\x7d\x7dZ"))
        FOLDER_STRUCTURE_TOKEN (cs ("F"))) ∧
    containsSub (buildPrompt witnessPromptConfig (cs ("F")) [(cs ("x"), cs ("y"))])
      (childBlock witnessPromptConfig [(cs ("x"), cs ("y"))]) = true :=
  have h := (buildPrompt_spec witnessPromptConfig (cs ("F"))
      [(cs ("x"), cs ("y"))]).1
    (cs ("A")) (cs ("M\x7b\x7bFOLDER_STRUCTURE\x7d\x7dZ"))
    (by decide) (by decide)
  ⟨h.1, h.2 (Or.inr ⟨cs ("M"), cs ("Z"), by decide⟩)⟩

/-! ### C7: merge fallback preserves both versions -/

/-- C7: when the merge invocation throws, `mergeWithExistingContent`
returns the new content, the fixed labelled separator, then the entire
existing content — so the new content, the existing content, and any
heading contained in the existing content all occur verbatim in the
result. -/
theorem mergeWithExistingContent_spec (env : ModelEnv)
    (existingContent newContent model : Str) (e : Unit)
    (hfail : env.send model (mergePrompt existingContent newContent) =
      Except.error e) :
    mergeWithExistingContent env existingContent newContent model =
      newContent ++ previousContentSeparator ++ existingContent ∧
    containsSub (mergeWithExistingContent env existingContent newContent model)
      newContent = true ∧
    containsSub (mergeWithExistingContent env existingContent newContent model)
      existingContent = true ∧
    ∀ heading, containsSub existingContent heading = true →
      containsSub (mergeWithExistingContent env existingContent newContent model)
        heading = true := by
  have hres : mergeWithExistingContent env existingContent newContent model =
      newContent ++ previousContentSeparator ++ existingContent := by
    unfold mergeWithExistingContent
    rw [hfail]
  refine ⟨hres, ?_, ?_, ?_⟩
  · rw [hres]
    apply (containsSub_eq_true_iff _ _).mpr
    exact ⟨[], previousContentSeparator ++ existingContent, by simp⟩
  · rw [hres]
    apply (containsSub_eq_true_iff _ _).mpr
    exact ⟨newContent ++ previousContentSeparator, [], by simp⟩
  · intro heading hhead
    rw [hres]
    apply (containsSub_eq_true_iff _ _).mpr
    have h1 : heading <:+: existingContent := (containsSub_eq_true_iff _ _).mp hhead
    have h2 : existingContent <:+:
        newContent ++ previousContentSeparator ++ existingContent :=
      ⟨newContent ++ previousContentSeparator, [], by simp⟩
    exact h1.trans h2

/-- Witness for C7: a custom heading present only in the existing
content survives the deterministic fallback merge. -/
theorem mergeWithExistingContent_spec_witness :
    mergeWithExistingContent failingModelEnv
        (cs ("## Coding Styles\nuse tabs")) (cs ("# New doc")) (cs ("gpt-4o")) =
      cs ("# New doc") ++ previousContentSeparator ++
        cs ("## Coding Styles\nuse tabs") ∧
    containsSub
      (mergeWithExistingContent failingModelEnv
        (cs ("## Coding Styles\nuse tabs")) (cs ("# New doc")) (cs ("gpt-4o")))
      (cs ("## Coding Styles")) = true :=
  have h := mergeWithExistingContent_spec failingModelEnv
    (cs ("## Coding Styles\nuse tabs")) (cs ("# New doc")) (cs ("gpt-4o")) () rfl
  ⟨h.1, h.2.2.2 (cs ("## Coding Styles")) (by decide)⟩

/-! ### C3: fallback on failure, success writes content -/

/-- C3: generation fails — writing the fixed fallback document (the
folder's name as a heading plus a failure note) and returning false —
exactly when no model id is selected (then without any model
invocation), when resolution returns no model (likewise before any
invocation), or when the model request throws; on success the
generated (or, when non-empty existing content was found, merged)
content is written and the result is true. -/
theorem generateAgentsMdForFolder_spec (cfg : PromptConfig) (env : ModelEnv)
    (inp : GenInput) :
    (inp.selectedModelId = none →
      generateAgentsMdForFolder cfg env inp =
        ⟨fallbackContent inp.name, false, false⟩) ∧
    (∀ id, inp.selectedModelId = some id → env.selectChatModels id = [] →
      generateAgentsMdForFolder cfg env inp =
        ⟨fallbackContent inp.name, false, false⟩) ∧
    (∀ id m ms e, inp.selectedModelId = some id →
      env.selectChatModels id = m :: ms →
      env.send m (buildPrompt cfg inp.folderStructure inp.subfolderDocs) =
        Except.error e →
      generateAgentsMdForFolder cfg env inp =
        ⟨fallbackContent inp.name, false, true⟩) ∧
    (∀ id m ms text, inp.selectedModelId = some id →
      env.selectChatModels id = m :: ms →
      env.send m (buildPrompt cfg inp.folderStructure inp.subfolderDocs) =
        Except.ok text →
      generateAgentsMdForFolder cfg env inp =
        ⟨(match inp.existingContent with
          | some existing =>
            if existing ≠ [] then
              mergeWithExistingContent env existing text m
            else text
          | none => text), true, true⟩) := by
  refine ⟨?_, ?_, ?_, ?_⟩
  · intro h
    unfold generateAgentsMdForFolder
    rw [h]
  · intro id hid hsel
    unfold generateAgentsMdForFolder
    simp only [hid, hsel]
  · intro id m ms e hid hsel hsend
    unfold generateAgentsMdForFolder
    simp only [hid, hsel, hsend]
  · intro id m ms text hid hsel hsend
    unfold generateAgentsMdForFolder
    simp only [hid, hsel, hsend]

/-- Witness for C3: with no model selected, generation writes the
fallback document and returns false without invoking a model; with a
model that throws, likewise but after invocation; with a succeeding
model and no existing file, the response is written and true
returned. -/
theorem generateAgentsMdForFolder_spec_witness :
    generateAgentsMdForFolder ⟨cs ("T"), cs ("U")⟩ failingModelEnv
        ⟨cs ("lib"), none, cs ("FS"), [], none⟩ =
      ⟨fallbackContent (cs ("lib")), false, false⟩ ∧
    generateAgentsMdForFolder ⟨cs ("T"), cs ("U")⟩ failingModelEnv
        ⟨cs ("lib"), none, cs ("FS"), [], some (cs ("gpt-4o"))⟩ =
      ⟨fallbackContent (cs ("lib")), false, true⟩ ∧
    generateAgentsMdForFolder ⟨cs ("T"), cs ("U")⟩
        ⟨fun _ => [cs ("gpt-4o")], fun _ _ => Except.ok (cs ("OUT"))⟩
        ⟨cs ("lib"), none, cs ("FS"), [], some (cs ("gpt-4o"))⟩ =
      ⟨cs ("OUT"), true, true⟩ :=
  ⟨(generateAgentsMdForFolder_spec ⟨cs ("T"), cs ("U")⟩ failingModelEnv
      ⟨cs ("lib"), none, cs ("FS"), [], none⟩).1 rfl,
   (generateAgentsMdForFolder_spec ⟨cs ("T"), cs ("U")⟩ failingModelEnv
      ⟨cs ("lib"), none, cs ("FS"), [], some (cs ("gpt-4o"))⟩).2.2.1
     (cs ("gpt-4o")) (cs ("gpt-4o")) [] () rfl rfl rfl,
   (generateAgentsMdForFolder_spec ⟨cs ("T"), cs ("U")⟩
      ⟨fun _ => [cs ("gpt-4o")], fun _ _ => Except.ok (cs ("OUT"))⟩
      ⟨cs ("lib"), none, cs ("FS"), [], some (cs ("gpt-4o"))⟩).2.2.2
     (cs ("gpt-4o")) (cs ("gpt-4o")) [] (cs ("OUT")) rfl rfl rfl⟩

/-! ### Collator facts -/

theorem compareNatList_eq_iff :
    ∀ x y : List Nat, compareNatList x y = Ordering.eq ↔ x = y
  | [], [] => by simp [compareNatList]
  | [], b :: bs => by simp [compareNatList]
  | a :: as2, [] => by simp [compareNatList]
  | a :: as2, b :: bs => by
    have ih := compareNatList_eq_iff as2 bs
    by_cases h1 : a < b
    · simp [compareNatList, h1]
      omega
    · by_cases h2 : b < a
      · simp [compareNatList, h1, h2]
        omega
      · have hab : a = b := by omega
        simp [compareNatList, h1, h2, ih, hab]

theorem compareNatList_swap :
    ∀ x y : List Nat, compareNatList x y = Ordering.lt ↔
      compareNatList y x = Ordering.gt
  | [], [] => by simp [compareNatList]
  | [], b :: bs => by simp [compareNatList]
  | a :: as2, [] => by simp [compareNatList]
  | a :: as2, b :: bs => by
    have ih := compareNatList_swap as2 bs
    by_cases h1 : a < b
    · have h2 : ¬ b < a := by omega
      simp [compareNatList, h1, h2]
    · by_cases h2 : b < a
      · simp [compareNatList, h1, h2]
      · simp [compareNatList, h1, h2, ih]

theorem compareNatList_trans_lt :
    ∀ x y z : List Nat, compareNatList x y = Ordering.lt →
      compareNatList y z = Ordering.lt → compareNatList x z = Ordering.lt
  | x, y, [] => by
    intro h1 h2
    cases y <;> simp [compareNatList] at h2
  | [], y, c :: zs => by
    intro h1 h2
    simp [compareNatList]
  | a :: xs, y, c :: zs => by
    intro h1 h2
    cases y with
    | nil => simp [compareNatList] at h1
    | cons b ys =>
      have ih := compareNatList_trans_lt xs ys zs
      by_cases hab : a < b
      · by_cases hbc : b < c
        · have hac : a < c := by omega
          simp [compareNatList, hac]
        · by_cases hcb : c < b
          · simp [compareNatList, hbc, hcb] at h2
          · have hbc2 : b = c := by omega
            have hac : a < c := by omega
            simp [compareNatList, hac]
      · by_cases hba : b < a
        · simp [compareNatList, hab, hba] at h1
        · have hab2 : a = b := by omega
          subst hab2
          by_cases hbc : a < c
          · simp [compareNatList, hbc]
          · by_cases hcb : c < a
            · simp [compareNatList, hbc, hcb] at h2
            · simp [compareNatList, hab, hba] at h1
              simp [compareNatList, hbc, hcb] at h2
              simp [compareNatList, hbc, hcb]
              exact ih h1 h2

theorem ord_ne_gt_iff (o : Ordering) :
    o ≠ Ordering.gt ↔ o = Ordering.lt ∨ o = Ordering.eq := by
  cases o <;> simp

theorem localeLe_total (a b : FolderNode) :
    localeLe a b = true ∨ localeLe b a = true := by
  unfold localeLe
  by_cases h : jsLocaleCompare a.path b.path = Ordering.gt
  · right
    unfold jsLocaleCompare at *
    cases hp : compareNatList (b.path.map collPrimary) (a.path.map collPrimary) with
    | lt => simp [hp]
    | eq =>
      have hpe : b.path.map collPrimary = a.path.map collPrimary :=
        (compareNatList_eq_iff _ _).mp hp
      cases hp2 : compareNatList (a.path.map collPrimary) (b.path.map collPrimary) with
      | lt => simp [hp2] at h
      | eq =>
        simp only [hp2] at h
        cases ht : compareNatList (b.path.map collTertiary) (a.path.map collTertiary) with
        | lt => simp [hp, ht]
        | eq => simp [hp, ht]
        | gt =>
          have := (compareNatList_swap
            (a.path.map collTertiary) (b.path.map collTertiary)).mpr ht
          simp [this] at h
      | gt =>
        have := (compareNatList_swap
          (b.path.map collPrimary) (a.path.map collPrimary)).mpr hp2
        rw [this] at hp
        cases hp
    | gt =>
      have := (compareNatList_swap
        (a.path.map collPrimary) (b.path.map collPrimary)).mp
        ((compareNatList_swap _ _).mpr hp)
      simp [hp]
      have hlt : compareNatList (a.path.map collPrimary) (b.path.map collPrimary)
          = Ordering.lt := (compareNatList_swap _ _).mpr hp
      simp [hlt] at h
  · left
    simpa using h

theorem localeLe_trans (a b c : FolderNode) (h1 : localeLe a b = true)
    (h2 : localeLe b c = true) : localeLe a c = true := by
  unfold localeLe jsLocaleCompare at *
  simp only [decide_eq_true_eq] at h1 h2 ⊢
  cases hab : compareNatList (a.path.map collPrimary) (b.path.map collPrimary) with
  | gt => simp [hab] at h1
  | lt =>
    cases hbc : compareNatList (b.path.map collPrimary) (c.path.map collPrimary) with
    | gt => simp [hbc] at h2
    | lt =>
      have := compareNatList_trans_lt _ _ _ hab hbc
      simp [this]
    | eq =>
      have he : b.path.map collPrimary = c.path.map collPrimary :=
        (compareNatList_eq_iff _ _).mp hbc
      rw [he] at hab
      simp [hab]
  | eq =>
    have he : a.path.map collPrimary = b.path.map collPrimary :=
      (compareNatList_eq_iff _ _).mp hab
    cases hbc : compareNatList (b.path.map collPrimary) (c.path.map collPrimary) with
    | gt => simp [hbc] at h2
    | lt =>
      rw [← he] at hbc
      simp [hbc]
    | eq =>
      have he2 : b.path.map collPrimary = c.path.map collPrimary :=
        (compareNatList_eq_iff _ _).mp hbc
      have hac : compareNatList (a.path.map collPrimary) (c.path.map collPrimary)
          = Ordering.eq := by
        rw [he, he2]
        exact (compareNatList_eq_iff _ _).mpr rfl
      rw [hab] at h1
      rw [hbc] at h2
      rw [hac]
      cases ht1 : compareNatList (a.path.map collTertiary) (b.path.map collTertiary) with
      | gt => simp [ht1] at h1
      | lt =>
        cases ht2 : compareNatList (b.path.map collTertiary) (c.path.map collTertiary) with
        | gt => simp [ht2] at h2
        | lt =>
          have := compareNatList_trans_lt _ _ _ ht1 ht2
          simp [this]
        | eq =>
          have he3 : b.path.map collTertiary = c.path.map collTertiary :=
            (compareNatList_eq_iff _ _).mp ht2
          rw [he3] at ht1
          simp [ht1]
      | eq =>
        have he3 : a.path.map collTertiary = b.path.map collTertiary :=
          (compareNatList_eq_iff _ _).mp ht1
        cases ht2 : compareNatList (b.path.map collTertiary) (c.path.map collTertiary) with
        | gt => simp [ht2] at h2
        | lt =>
          rw [← he3] at ht2
          simp [ht2]
        | eq =>
          have he4 : b.path.map collTertiary = c.path.map collTertiary :=
            (compareNatList_eq_iff _ _).mp ht2
          have : compareNatList (a.path.map collTertiary) (c.path.map collTertiary)
              = Ordering.eq := by
            rw [he3, he4]
            exact (compareNatList_eq_iff _ _).mpr rfl
          simp [this]

/-! ### Counting -/

theorem snapshot_counts (items : List StatusItem) :
    ∀ acc : Nat × Nat × Nat,
      items.foldl
        (fun acc item =>
          match item.status with
          | GenerationStatus.completed => (acc.1 + 1, acc.2.1, acc.2.2)
          | GenerationStatus.inProgress => (acc.1, acc.2.1 + 1, acc.2.2)
          | GenerationStatus.failed => (acc.1, acc.2.1, acc.2.2 + 1)
          | GenerationStatus.notStarted => acc)
        acc =
      (acc.1 + items.countP (fun i => decide (i.status = GenerationStatus.completed)),
       acc.2.1 + items.countP (fun i => decide (i.status = GenerationStatus.inProgress)),
       acc.2.2 + items.countP (fun i => decide (i.status = GenerationStatus.failed))) := by
  induction items with
  | nil => intro acc; simp
  | cons it rest ih =>
    intro acc
    rw [List.foldl_cons, ih]
    cases h : it.status <;>
      simp [List.countP_cons, h] <;> omega

theorem countP_three_le_length (items : List StatusItem) :
    items.countP (fun i => decide (i.status = GenerationStatus.completed)) +
      items.countP (fun i => decide (i.status = GenerationStatus.inProgress)) +
      items.countP (fun i => decide (i.status = GenerationStatus.failed)) ≤
    items.length := by
  induction items with
  | nil => simp
  | cons it rest ih =>
    cases h : it.status <;>
      simp [List.countP_cons, h] <;> omega

theorem snapshot_completed_eq (items : List StatusItem) :
    (items.foldl
      (fun acc item =>
        match item.status with
        | GenerationStatus.completed => (acc.1 + 1, acc.2.1, acc.2.2)
        | GenerationStatus.inProgress => (acc.1, acc.2.1 + 1, acc.2.2)
        | GenerationStatus.failed => (acc.1, acc.2.1, acc.2.2 + 1)
        | GenerationStatus.notStarted => acc)
      ((0, 0, 0) : Nat × Nat × Nat)).1 =
    items.countP (fun i => decide (i.status = GenerationStatus.completed)) := by
  rw [snapshot_counts]
  simp

theorem snapshot_inProgress_eq (items : List StatusItem) :
    (items.foldl
      (fun acc item =>
        match item.status with
        | GenerationStatus.completed => (acc.1 + 1, acc.2.1, acc.2.2)
        | GenerationStatus.inProgress => (acc.1, acc.2.1 + 1, acc.2.2)
        | GenerationStatus.failed => (acc.1, acc.2.1, acc.2.2 + 1)
        | GenerationStatus.notStarted => acc)
      ((0, 0, 0) : Nat × Nat × Nat)).2.1 =
    items.countP (fun i => decide (i.status = GenerationStatus.inProgress)) := by
  rw [snapshot_counts]
  simp

theorem snapshot_failed_eq (items : List StatusItem) :
    (items.foldl
      (fun acc item =>
        match item.status with
        | GenerationStatus.completed => (acc.1 + 1, acc.2.1, acc.2.2)
        | GenerationStatus.inProgress => (acc.1, acc.2.1 + 1, acc.2.2)
        | GenerationStatus.failed => (acc.1, acc.2.1, acc.2.2 + 1)
        | GenerationStatus.notStarted => acc)
      ((0, 0, 0) : Nat × Nat × Nat)).2.2 =
    items.countP (fun i => decide (i.status = GenerationStatus.failed)) := by
  rw [snapshot_counts]
  simp

/-- C10 (amended): the snapshot's item list has exactly one row per
discovered folder (`items.length = total = folders.length`); the rows
are sorted ascending by the locale-aware comparison of paths the code
passes to `sort` — which need not coincide with code-unit
lexicographic order — not in processing order; and the three counters
equal the number of rows in the corresponding status, so their sum
never exceeds the total. -/
theorem buildStatusSnapshot_spec (folders : List FolderNode)
    (statusMap : StatusMap) (relativeOf : Str → Str) (depthOf : Str → Nat)
    (detailsOf : Str → FolderDocStatusDetails) (lastUpdated : Str) :
    (buildStatusSnapshot folders statusMap relativeOf depthOf detailsOf
        lastUpdated).total = folders.length ∧
    (buildStatusSnapshot folders statusMap relativeOf depthOf detailsOf
        lastUpdated).items.length = folders.length ∧
    ((buildStatusSnapshot folders statusMap relativeOf depthOf detailsOf
        lastUpdated).items.map StatusItem.path).Pairwise
      (fun x y => jsLocaleCompare x y ≠ Ordering.gt) ∧
    (buildStatusSnapshot folders statusMap relativeOf depthOf detailsOf
        lastUpdated).completed =
      (buildStatusSnapshot folders statusMap relativeOf depthOf detailsOf
        lastUpdated).items.countP
        (fun i => decide (i.status = GenerationStatus.completed)) ∧
    (buildStatusSnapshot folders statusMap relativeOf depthOf detailsOf
        lastUpdated).inProgress =
      (buildStatusSnapshot folders statusMap relativeOf depthOf detailsOf
        lastUpdated).items.countP
        (fun i => decide (i.status = GenerationStatus.inProgress)) ∧
    (buildStatusSnapshot folders statusMap relativeOf depthOf detailsOf
        lastUpdated).failed =
      (buildStatusSnapshot folders statusMap relativeOf depthOf detailsOf
        lastUpdated).items.countP
        (fun i => decide (i.status = GenerationStatus.failed)) ∧
    (buildStatusSnapshot folders statusMap relativeOf depthOf detailsOf
        lastUpdated).completed +
      (buildStatusSnapshot folders statusMap relativeOf depthOf detailsOf
        lastUpdated).inProgress +
      (buildStatusSnapshot folders statusMap relativeOf depthOf detailsOf
        lastUpdated).failed ≤
      (buildStatusSnapshot folders statusMap relativeOf depthOf detailsOf
        lastUpdated).total := by
  have hlen : (buildStatusSnapshot folders statusMap relativeOf depthOf
      detailsOf lastUpdated).items.length = folders.length := by
    show ((stableSort localeLe folders).map _).length = folders.length
    rw [List.length_map]
    exact (stableSort_perm _ _).length_eq
  have hcomp := snapshot_completed_eq
    (buildStatusSnapshot folders statusMap relativeOf depthOf detailsOf
      lastUpdated).items
  have hinp := snapshot_inProgress_eq
    (buildStatusSnapshot folders statusMap relativeOf depthOf detailsOf
      lastUpdated).items
  have hfail := snapshot_failed_eq
    (buildStatusSnapshot folders statusMap relativeOf depthOf detailsOf
      lastUpdated).items
  refine ⟨rfl, hlen, ?_, hcomp, hinp, hfail, ?_⟩
  · have hpw := stableSort_pairwise localeLe localeLe_total localeLe_trans folders
    have hmap : (buildStatusSnapshot folders statusMap relativeOf depthOf
        detailsOf lastUpdated).items.map StatusItem.path =
        (stableSort localeLe folders).map FolderNode.path := by
      show ((stableSort localeLe folders).map _).map StatusItem.path = _
      rw [List.map_map]
      rfl
    rw [hmap]
    rw [List.pairwise_map]
    refine hpw.imp ?_
    intro a b h
    unfold localeLe at h
    simpa using h
  · have hcomp2 : (buildStatusSnapshot folders statusMap relativeOf depthOf
        detailsOf lastUpdated).completed =
        (buildStatusSnapshot folders statusMap relativeOf depthOf detailsOf
          lastUpdated).items.countP
          (fun i => decide (i.status = GenerationStatus.completed)) := hcomp
    have hinp2 : (buildStatusSnapshot folders statusMap relativeOf depthOf
        detailsOf lastUpdated).inProgress =
        (buildStatusSnapshot folders statusMap relativeOf depthOf detailsOf
          lastUpdated).items.countP
          (fun i => decide (i.status = GenerationStatus.inProgress)) := hinp
    have hfail2 : (buildStatusSnapshot folders statusMap relativeOf depthOf
        detailsOf lastUpdated).failed =
        (buildStatusSnapshot folders statusMap relativeOf depthOf detailsOf
          lastUpdated).items.countP
          (fun i => decide (i.status = GenerationStatus.failed)) := hfail
    have htot : (buildStatusSnapshot folders statusMap relativeOf depthOf
        detailsOf lastUpdated).total = folders.length := rfl
    rw [hcomp2, hinp2, hfail2, htot, ← hlen]
    exact countP_three_le_length _

/-- C10, counterexample: with folders at paths "/B" then "/a", the
snapshot sorts by the default-locale comparison and yields "/a" before
"/B", which is not ascending code-unit lexicographic order (there "/B"
sorts first). -/
theorem buildStatusSnapshot_counterexample :
    ((buildStatusSnapshot
        [⟨cs ("/B"), cs ("B"), []⟩, ⟨cs ("/a"), cs ("a"), []⟩] []
        (fun p => p) (fun _ => 0) (fun _ => ⟨false, none, none, false⟩)
        (cs ("t"))).items.map StatusItem.path = [cs ("/a"), cs ("/B")]) ∧
    ¬ ((buildStatusSnapshot
        [⟨cs ("/B"), cs ("B"), []⟩, ⟨cs ("/a"), cs ("a"), []⟩] []
        (fun p => p) (fun _ => 0) (fun _ => ⟨false, none, none, false⟩)
        (cs ("t"))).items.map StatusItem.path).Pairwise
      (fun x y => lexLeStr x y = true) := by
  constructor
  · decide
  · intro h
    have h2 : lexLeStr (cs ("/a")) (cs ("/B")) = true := by
      have hmap : (buildStatusSnapshot
          [⟨cs ("/B"), cs ("B"), []⟩, ⟨cs ("/a"), cs ("a"), []⟩] []
          (fun p => p) (fun _ => 0) (fun _ => ⟨false, none, none, false⟩)
          (cs ("t"))).items.map StatusItem.path = [cs ("/a"), cs ("/B")] := by
        decide
      rw [hmap] at h
      rw [List.pairwise_cons] at h
      exact h.1 _ (List.mem_singleton.mpr rfl)
    have h3 : lexLeStr (cs ("/a")) (cs ("/B")) = false := by decide
    rw [h2] at h3
    cases h3
